import Mathlib

/-!
Shallow embedding of the transcript-parsing utility
(`src/transcript_parser/parse_transcript.py` and
`src/transcript_parser/debug_dump.py`) and proofs about it.

Python strings are modelled as Lean `String` (operated on through their
`data : List Char`), floats as `ℚ`, dictionaries from the pdfplumber /
PaddleOCR collaborators as structures with `Option` fields, and the
optional external libraries as explicit environment parameters.  All
regular expressions of the source are hand-compiled to decidable
functions on character lists.
-/

/-- Python whitespace (the characters stripped by `str.strip()` and
matched by the regex class `\s` on the ASCII-plus-NBSP strings this tool
manipulates). -/
def isPySpace (c : Char) : Bool :=
  c = ' ' || c = '\t' || c = '\n' || c = '\r' || c = '\x0b' || c = '\x0c' || c = '\u00a0'

/-- Regex word character `\w` (ASCII): letters, digits, underscore. -/
def isWordChar (c : Char) : Bool :=
  c.isAlphanum || c = '_'

/-- Python `str.upper()` (ASCII behaviour, which is all the source relies on). -/
def pyUpper (s : String) : String := ⟨s.data.map Char.toUpper⟩

/-- Drop leading and trailing characters satisfying `p` (Python `str.strip(chars)`). -/
def stripWhile (p : Char → Bool) (s : String) : String :=
  ⟨((s.data.dropWhile p).reverse.dropWhile p).reverse⟩

/-- Python `str.strip()` with no arguments. -/
def pyStrip (s : String) : String := stripWhile isPySpace s

/-- Python `str.strip(" -,:;")` and friends: strip any of the given characters. -/
def stripCharsSet (chars : List Char) (s : String) : String :=
  stripWhile (fun c => chars.contains c) s

/-- Python `str.rstrip(":")`. -/
def rstripColon (s : String) : String :=
  ⟨(s.data.reverse.dropWhile (fun c => c = ':')).reverse⟩

/-- Does the first list start with the second one? -/
def listStartsWith [DecidableEq α] : List α → List α → Bool
  | _, [] => true
  | [], _ :: _ => false
  | a :: as, b :: bs => a = b && listStartsWith as bs

/-- Case-insensitive `listStartsWith` on characters. -/
def listStartsWithCI (l pat : List Char) : Bool :=
  listStartsWith (l.map Char.toUpper) (pat.map Char.toUpper)

/-- Index of the first occurrence of `pat` in `l` (Python `str.find`),
`none` when absent. -/
def listFindSub [DecidableEq α] (pat : List α) : List α → Option Nat
  | [] => if listStartsWith ([] : List α) pat then some 0 else none
  | a :: rest =>
    if listStartsWith (a :: rest) pat then some 0
    else (listFindSub pat rest).map (· + 1)

/-- Python `pat in s` (substring containment). -/
def containsStr (s pat : String) : Bool := (listFindSub pat.data s.data).isSome

/-- Python `str.endswith`. -/
def endsWithStr (s pat : String) : Bool :=
  listStartsWith s.data.reverse pat.data.reverse

/-- Split a character list at every `'\n'` (the line structure seen by the
`(?m)` anchors of the source's regexes). -/
def splitLinesAux (cur : List Char) : List Char → List (List Char)
  | [] => [cur.reverse]
  | c :: rest =>
    if c = '\n' then cur.reverse :: splitLinesAux [] rest
    else splitLinesAux (c :: cur) rest

/-- All lines of a string. -/
def splitLines (s : String) : List (List Char) := splitLinesAux [] s.data

/-- Stable insertion used by `pySort`. -/
def insertStable (le : α → α → Bool) (x : α) : List α → List α
  | [] => [x]
  | y :: ys => if le y x then y :: insertStable le x ys else x :: y :: ys

/-- Stable sort (same observable behaviour as Python's stable `list.sort`
for a total preorder `le`): elements comparing equal keep their original
relative order. -/
def pySort (le : α → α → Bool) (l : List α) : List α :=
  l.foldl (fun acc x => insertStable le x acc) []

theorem insertStable_perm (le : α → α → Bool) (x : α) (l : List α) :
    List.Perm (insertStable le x l) (x :: l) := by
  induction l with
  | nil => simp [insertStable]
  | cons y ys ih =>
    simp only [insertStable]
    by_cases h : le y x
    · simp only [h, if_pos]
      exact (List.Perm.cons y ih).trans (List.Perm.swap x y ys)
    · simp [h]

theorem foldl_insertStable_perm (le : α → α → Bool) (l acc : List α) :
    List.Perm (l.foldl (fun acc x => insertStable le x acc) acc) (acc ++ l) := by
  induction l generalizing acc with
  | nil => simp
  | cons x xs ih =>
    simp only [List.foldl_cons]
    refine (ih (insertStable le x acc)).trans ?_
    refine (List.Perm.append_right xs (insertStable_perm le x acc)).trans ?_
    exact List.perm_middle.symm

theorem pySort_perm (le : α → α → Bool) (l : List α) :
    List.Perm (pySort le l) l := by
  simpa using foldl_insertStable_perm le l []

theorem mem_pySort (le : α → α → Bool) {l : List α} {x : α} :
    x ∈ pySort le l ↔ x ∈ l :=
  (pySort_perm le l).mem_iff

theorem insertStable_sorted (le : α → α → Bool)
    (htot : ∀ a b, le a b = true ∨ le b a = true)
    (htr : ∀ a b c, le a b = true → le b c = true → le a c = true)
    (x : α) (l : List α) (hl : List.Pairwise (fun a b => le a b = true) l) :
    List.Pairwise (fun a b => le a b = true) (insertStable le x l) := by
  induction l with
  | nil => simp [insertStable]
  | cons y ys ih =>
    rw [List.pairwise_cons] at hl
    simp only [insertStable]
    by_cases h : le y x = true
    · simp only [h, if_pos, List.pairwise_cons]
      refine ⟨?_, ih hl.2⟩
      intro z hz
      rw [(insertStable_perm le x ys).mem_iff] at hz
      rcases List.mem_cons.mp hz with rfl | hz
      · exact h
      · exact hl.1 z hz
    · rw [if_neg h, List.pairwise_cons]
      have hxy : le x y = true := by
        rcases htot x y with h1 | h1
        · exact h1
        · exact absurd h1 h
      refine ⟨?_, List.pairwise_cons.mpr ⟨hl.1, hl.2⟩⟩
      intro z hz
      rcases List.mem_cons.mp hz with rfl | hz
      · exact hxy
      · exact htr x y z hxy (hl.1 z hz)

theorem pySort_sorted (le : α → α → Bool)
    (htot : ∀ a b, le a b = true ∨ le b a = true)
    (htr : ∀ a b c, le a b = true → le b c = true → le a c = true)
    (l : List α) :
    List.Pairwise (fun a b => le a b = true) (pySort le l) := by
  have gen : ∀ (l acc : List α), List.Pairwise (fun a b => le a b = true) acc →
      List.Pairwise (fun a b => le a b = true)
        (l.foldl (fun acc x => insertStable le x acc) acc) := by
    intro l
    induction l with
    | nil => intro acc h; simpa using h
    | cons x xs ih =>
      intro acc h
      simp only [List.foldl_cons]
      exact ih _ (insertStable_sorted le htot htr x acc h)
  exact gen l [] List.Pairwise.nil

/-- Word in the page coordinate system, as handed over by pdfplumber
(`page.extract_words()` dictionaries; `Option` models absent keys). -/
structure PWord where
  text : Option String
  x0 : Option ℚ
  x1 : Option ℚ
  top : Option ℚ
  bottom : Option ℚ
deriving DecidableEq, Repr

/-- `Tok` dataclass of `parse_transcript.py`. -/
structure Tok where
  text : String
  x0 : ℚ
  x1 : ℚ
  y0 : ℚ
  y1 : ℚ
  page : Nat
deriving DecidableEq, Repr

/-- `Row` dataclass of `parse_transcript.py`. -/
structure Row where
  page : Nat
  y : ℚ
  toks : List Tok
deriving DecidableEq, Repr

/-- `_row_text`: join the token texts of a row with single spaces. -/
def row_text (r : Row) : String :=
  String.intercalate " " (r.toks.map (fun t => t.text))

/-- `_normalize_text`: NBSP to space, en dash / em dash / minus sign to "-". -/
def normalizeChar (c : Char) : Char :=
  if c = '\u00a0' then ' '
  else if c = '\u2013' || c = '\u2014' || c = '\u2212' then '-' else c

/-- String version of `_normalize_text` (the source's chained `str.replace`
calls, all on single characters). -/
def normalize_text (s : String) : String := ⟨s.data.map normalizeChar⟩

/-- `NUM_TOKEN_PAT` fullmatch: `(?i)^\d{3,4}[A-Z]?$`. -/
def numTokB (s : String) : Bool :=
  let ds := s.data.takeWhile Char.isDigit
  let rest := s.data.drop ds.length
  (ds.length = 3 || ds.length = 4) &&
    (match rest with
     | [] => true
     | [c] => c.isAlpha
     | _ => false)

/-- Fullmatch of `[A-Za-z]{2,}` (used on candidate subject-code tokens). -/
def alpha2B (s : String) : Bool :=
  decide (2 ≤ s.data.length) && s.data.all (fun c => c.isAlpha)

/-- The separator tokens accepted between a subject code and its number. -/
def sepTokB (s : String) : Bool :=
  s = ":" || s = "-" || s = "\u2013" || s = "\u2014"

/-- A letter acceptable as a strict grade (`A|B|C|D|F`, case-insensitive). -/
def strictLetter (c : Char) : Bool :=
  ['A', 'B', 'C', 'D', 'F'].contains c.toUpper

/-- A `+`/`-`/minus-sign suffix of a strict grade. -/
def signChar (c : Char) : Bool :=
  c = '+' || c = '-' || c = '\u2212'

/-- `GRADE_TOKEN_STRICT` fullmatch: `(?i)^(A|B|C|D|F)([+\-\u2212])?$`. -/
def gradeStrictB (s : String) : Bool :=
  match s.data with
  | [c] => strictLetter c
  | [c, d] => strictLetter c && signChar d
  | _ => false

/-- `GRADE_TOKEN_LOOSE` fullmatch: `(?i)^(P|S|U|I|T)$`. -/
def gradeLooseB (s : String) : Bool :=
  match s.data with
  | [c] => ['P', 'S', 'U', 'I', 'T'].contains c.toUpper
  | _ => false

/-- `LEVEL_TOKEN` fullmatch: `(?i)^(UG|GR|G|U)$`. -/
def levelTokB (s : String) : Bool :=
  ["UG", "GR", "G", "U"].contains (pyUpper s)

/-- Fullmatch of the credits pattern `\d+\.\d{2,3}`. -/
def creditsTokB (s : String) : Bool :=
  let ds := s.data.takeWhile Char.isDigit
  let rest := s.data.drop ds.length
  !ds.isEmpty &&
    (match rest with
     | '.' :: r2 =>
       let ds2 := r2.takeWhile Char.isDigit
       (r2.drop ds2.length).isEmpty && (ds2.length = 2 || ds2.length = 3)
     | _ => false)

/-- The `.replace("\u2212", "-")` applied to grade strings. -/
def replaceMinus (s : String) : String :=
  ⟨s.data.map (fun c => if c = '\u2212' then '-' else c)⟩

/-- Does `\bIN\s+PROGRESS\b` match at the head of `l` (with `prev` the
character just before it)? -/
def inprogAt (prev : Option Char) (l : List Char) : Bool :=
  match l with
  | c1 :: c2 :: rest =>
    !(match prev with | some p => isWordChar p | none => false) &&
    c1.toUpper = 'I' && c2.toUpper = 'N' &&
    (let ws := rest.takeWhile isPySpace
     !ws.isEmpty && listStartsWithCI (rest.drop ws.length) "PROGRESS".data &&
       !(match rest.drop (ws.length + 8) with
         | d :: _ => isWordChar d
         | [] => false))
  | _ => false

/-- Scan for `\bIN\s+PROGRESS\b` anywhere (`INPROG_PAT.search`). -/
def inprogSearchAux (prev : Option Char) : List Char → Bool
  | [] => false
  | c :: rest => inprogAt prev (c :: rest) || inprogSearchAux (some c) rest

/-- `INPROG_PAT.search(s)` as a Bool. -/
def inprogSearchB (s : String) : Bool := inprogSearchAux none s.data

/-- `INPROG_PAT.fullmatch(s)`: the whole string is `IN`, whitespace, `PROGRESS`. -/
def inprogFullB (s : String) : Bool :=
  match s.data with
  | c1 :: c2 :: rest =>
    c1.toUpper = 'I' && c2.toUpper = 'N' &&
    (let ws := rest.takeWhile isPySpace
     !ws.isEmpty &&
       (rest.drop ws.length).map Char.toUpper = "PROGRESS".data)
  | _ => false

/-- Does the case-insensitive literal `pat` occur at the head of `l` with
word boundaries on both sides (`prev` is the preceding character)? -/
def wordBoundAt (pat : List Char) (prev : Option Char) (l : List Char) : Bool :=
  listStartsWithCI l pat &&
    !(match prev with | some p => isWordChar p | none => false) &&
    !(match l.drop pat.length with | d :: _ => isWordChar d | [] => false)

/-- Search for a case-insensitive literal with `\b` on both sides. -/
def searchWordBAux (pat : List Char) (prev : Option Char) : List Char → Bool
  | [] => wordBoundAt pat prev []
  | c :: rest => wordBoundAt pat prev (c :: rest) || searchWordBAux pat (some c) rest

/-- String-level `\b<pat>\b` search (case-insensitive). -/
def searchWordB (s pat : String) : Bool := searchWordBAux pat.data none s.data

/-- `URL_PAT.search`: `https?://` (case-sensitive). -/
def urlSearchB (s : String) : Bool :=
  containsStr s "http://" || containsStr s "https://"

/-- A literal alternative of `ADMIN_ROW` matching at the start of the row
text, followed by a word boundary. -/
def startsWithWordCI (s : String) (lit : String) : Bool :=
  listStartsWithCI s.data lit.data &&
    !(match s.data.drop lit.data.length with
      | d :: _ => isWordChar d
      | [] => false)

/-- `ADMIN_ROW.match`: `(?i)^(Ehrs|GPA|TOTAL|Dean's List|Good Standing|Earned
Hrs|TRANSCRIPT TOTALS|Totals?)\b`. -/
def adminRowMatchB (s : String) : Bool :=
  ["Ehrs", "GPA", "TOTAL", "Dean\x27s List", "Good Standing", "Earned Hrs",
   "TRANSCRIPT TOTALS", "Totals", "Total"].any (fun lit => startsWithWordCI s lit)

/-- `SEMESTER_HEADING.match`: a season word, whitespace, then a term word
with a trailing word boundary. -/
def semesterHeadingMatchB (s : String) : Bool :=
  ["FALL", "SPRING", "SUMMER", "WINTER", "AUTUMN", "JAN", "MAY", "AUGUST"].any
    (fun sea =>
      listStartsWithCI s.data sea.data &&
        (let rest := s.data.drop sea.data.length
         let ws := rest.takeWhile isPySpace
         !ws.isEmpty &&
           ["SEMESTER", "TERM", "SESSION", "QUARTER"].any (fun te =>
             let r2 := rest.drop ws.length
             listStartsWithCI r2 te.data &&
               !(match r2.drop te.data.length with
                 | d :: _ => isWordChar d
                 | [] => false))))

/-- `CUMULATIVE_HEADING.match`: `(?i)^(CUMULATIVE|SUMMARY)\b`. -/
def cumulativeHeadingMatchB (s : String) : Bool :=
  ["CUMULATIVE", "SUMMARY"].any (fun lit => startsWithWordCI s lit)

/-- `_is_admin_row`. -/
def is_admin_row (txt : String) : Bool :=
  let up := pyUpper (pyStrip txt)
  adminRowMatchB txt || urlSearchB txt ||
  semesterHeadingMatchB up || cumulativeHeadingMatchB up ||
  containsStr up "END OF TRANSCRIPT" ||
  listStartsWith up.data "FROM:".data || listStartsWith up.data "TO:".data

/-- `STOP_TOKENS` of the source. -/
def STOP_TOKENS : List String :=
  ["EARNED", "EARNED:", "CUMULATIVE", "QPTS", "GPA", "ATT:", "ATT", "CREDITS",
   "SEMESTER", "TERM", "SESSION", "QUARTER", "GRADUATE", "UNDERGRADUATE",
   "GRAD", "END", "TRANSCRIPT", "EXPLANATION", "REGISTRAR", "REGISTRAR\u2019S",
   "REGISTRAR\x27S", "OFFICE", "TCR", "TA", "TB", "TC", "TD", "TF"]

/-- `PRETITLE_TOKENS` of the source. -/
def PRETITLE_TOKENS : List String :=
  ["MAIN", "CAMPUS", "CAMPUS-", "ONLINE", "REMOTE", "DISTANCE", "LEARNING",
   "DL", "HYBRID", "UNF", "UTK", "UNIV", "COL"]

/-- `FLAG_SINGLE_LETTERS` of the source. -/
def FLAG_SINGLE_LETTERS : List String := ["C", "R", "H"]

/-- `_is_stop_token`. -/
def is_stop_token (t : String) : Bool :=
  STOP_TOKENS.contains (rstripColon (pyUpper (pyStrip t))) || inprogFullB (pyStrip t)

/-- `SUBJECT_ALIASES` table. -/
def SUBJECT_ALIASES : List (String × List String) :=
  [("math", ["MATH", "MAT", "MTH", "MA", "MATG", "MAS", "MAP", "STA", "STAT"]),
   ("stat", ["STAT", "STA"]),
   ("cs", ["CS", "CSC", "CSCI", "CSE", "COSC"]),
   ("physics", ["PHYS", "PHY"]),
   ("chem", ["CHEM", "CHM"]),
   ("bio", ["BIOL", "BIO"]),
   ("econ", ["ECON", "ECN"]),
   ("engr", ["ENGR", "EGR"])]

/-- Python `str.lower()` (ASCII). -/
def pyLower (s : String) : String := ⟨s.data.map Char.toLower⟩

/-- String order used by Python `sorted` on strings (code-point lexicographic). -/
def strLe (a b : String) : Bool := a = b || decide (a < b)

/-- `_expand_subjects`: union of alias expansions (set semantics), returned
sorted; unknown labels pass through upper-cased. -/
def expand_subjects (subjects : List String) : List String :=
  let expanded := subjects.foldl (fun acc s =>
    match SUBJECT_ALIASES.find? (fun kv => kv.1 = pyLower s) with
    | some kv => acc ++ kv.2
    | none => acc ++ [pyUpper s]) []
  pySort strLe expanded.dedup

/-- `_allowed_set`: the expanded prefixes, upper-cased (as a list used with
set membership). -/
def allowed_set (subjects : List String) : List String :=
  (expand_subjects subjects).map pyUpper

/-- One grouping step of `_extract_rows_pdfplumber`: close the current row
(sorting its tokens by `x0`) when the vertical gap exceeds `y_tol` or the
page changes. -/
def sortToksByX0 (toks : List Tok) : List Tok :=
  pySort (fun a b => decide (a.x0 ≤ b.x0)) toks

/-- The per-page accumulator loop of `_extract_rows_pdfplumber`. -/
def pdfGroupLoop (yTol : ℚ) (pidx : Nat) (cur : Option Row) : List PWord → List Row
  | [] =>
    match cur with
    | none => []
    | some r => [{ r with toks := sortToksByX0 r.toks }]
  | w :: ws =>
    let t := normalize_text (w.text.getD "")
    if t = "" then pdfGroupLoop yTol pidx cur ws
    else
      let top := w.top.getD 0
      let x0 := w.x0.getD 0
      let x1 := w.x1.getD x0
      let bottom := w.bottom.getD (top + 8)
      let tok : Tok := ⟨t, x0, x1, top, bottom, pidx⟩
      match cur with
      | none => pdfGroupLoop yTol pidx (some ⟨pidx, top, [tok]⟩) ws
      | some r =>
        if yTol < |top - r.y| || tok.page ≠ r.page then
          { r with toks := sortToksByX0 r.toks } ::
            pdfGroupLoop yTol pidx (some ⟨pidx, top, [tok]⟩) ws
        else
          pdfGroupLoop yTol pidx (some { r with toks := r.toks ++ [tok] }) ws

/-- The per-page word sort of `_extract_rows_pdfplumber`
(`words.sort(key=lambda w: (w.get("top", 0.0), w.get("x0", 0.0)))`). -/
def sortWordsByTopX0 (ws : List PWord) : List PWord :=
  pySort (fun a b =>
    decide (a.top.getD 0 < b.top.getD 0) ||
      (a.top.getD 0 = b.top.getD 0 && decide (a.x0.getD 0 ≤ b.x0.getD 0))) ws

/-- Final `rows.sort(key=lambda r: (r.page, r.y))`. -/
def sortRowsByPageY (rows : List Row) : List Row :=
  pySort (fun a b =>
    decide (a.page < b.page) || (a.page = b.page && decide (a.y ≤ b.y))) rows

/-- `_extract_rows_pdfplumber`.  The external library is modelled by the
parameter: `none` when `pdfplumber is None`, otherwise the per-page word
lists that `page.extract_words()` returns. -/
def extract_rows_pdfplumber (pdfPages : Option (List (List PWord)))
    (yTol : ℚ) : List Row :=
  match pdfPages with
  | none => []
  | some pages =>
    let rows := (pages.enum.map (fun pw =>
      pdfGroupLoop yTol (pw.1 + 1) none (sortWordsByTopX0 pw.2))).flatten
    sortRowsByPageY rows

/-- One recognised OCR line: a quadrilateral box (four corner points) and
its text, as produced by the PaddleOCR collaborator. -/
structure OcrLine where
  p1 : ℚ × ℚ
  p2 : ℚ × ℚ
  p3 : ℚ × ℚ
  p4 : ℚ × ℚ
  text : String
deriving DecidableEq, Repr

/-- Environment for `_extract_rows_ocr`: availability of the lazily imported
libraries, success of engine initialisation / PDF-to-image conversion, and
the recognised lines per page (`none` for a page whose `ocr.ocr` call raised
or returned a falsy result). -/
structure OcrEnv where
  paddleAvailable : Bool
  convertAvailable : Bool
  initOk : Bool
  convertOk : Bool
  pages : List (Option (List OcrLine))
deriving DecidableEq, Repr

/-- `push_token` of `_extract_rows_ocr`: append the token to the first row
of the page within `y_tol` of its top, else open a new row at the end. -/
def push_token (yTol : ℚ) (tok : Tok) : List Row → List Row
  | [] => [⟨tok.page, tok.y0, [tok]⟩]
  | r :: rest =>
    if |r.y - tok.y0| ≤ yTol then { r with toks := r.toks ++ [tok] } :: rest
    else r :: push_token yTol tok rest

/-- Minimum and maximum of the four box corner coordinates. -/
def min4 (a b c d : ℚ) : ℚ := min (min (min a b) c) d

/-- Maximum of four rationals. -/
def max4 (a b c d : ℚ) : ℚ := max (max (max a b) c) d

/-- Rows of one OCR page, before the per-page sorts. -/
def ocrPageRows (yTol : ℚ) (pidx : Nat) (lines : List OcrLine) : List Row :=
  lines.foldl (fun acc line =>
    if line.text = "" then acc
    else
      let x0 := min4 line.p1.1 line.p2.1 line.p3.1 line.p4.1
      let x1 := max4 line.p1.1 line.p2.1 line.p3.1 line.p4.1
      let y0 := min4 line.p1.2 line.p2.2 line.p3.2 line.p4.2
      let y1 := max4 line.p1.2 line.p2.2 line.p3.2 line.p4.2
      push_token yTol ⟨normalize_text line.text, x0, x1, y0, y1, pidx⟩ acc) []

/-- Per-page sort of OCR rows by `y`. -/
def sortRowsByY (rows : List Row) : List Row :=
  pySort (fun a b => decide (a.y ≤ b.y)) rows

/-- `_extract_rows_ocr`. -/
def extract_rows_ocr (env : OcrEnv) (yTol : ℚ) : List Row :=
  if !(env.paddleAvailable && env.convertAvailable) then []
  else if !env.initOk then []
  else if !env.convertOk then []
  else
    let perPage := env.pages.enum.map (fun pp =>
      match pp.2 with
      | none => []
      | some lines =>
        let prows := ocrPageRows yTol (pp.1 + 1) lines
        sortRowsByY (prows.map (fun r => { r with toks := sortToksByX0 r.toks })))
    sortRowsByPageY perPage.flatten

/-- External-world parameters of one `run_file` invocation: the
`TRANSCRIPT_FORCE_OCR` environment override, the pdfplumber word source and
the OCR stack. -/
structure Env where
  forceFlagEnv : Bool
  pdfPages : Option (List (List PWord))
  ocr : OcrEnv
deriving DecidableEq, Repr

/-- `_extract_rows`: primary extraction first (skipped entirely when OCR is
forced), OCR fallback only when the primary row list is empty, returning
the rows together with the `ocr_used` flag. -/
def extract_rows (env : Env) (preferOcr : Bool) : List Row × Bool :=
  let forceOcr := preferOcr || env.forceFlagEnv
  let rowsPdf := if forceOcr then [] else extract_rows_pdfplumber env.pdfPages (3.2 : ℚ)
  if !rowsPdf.isEmpty then (rowsPdf, false)
  else
    let rowsOcr := extract_rows_ocr env.ocr (6 : ℚ)
    if !rowsOcr.isEmpty then (rowsOcr, true)
    else ([], false)

/-- `Token` dataclass of `debug_dump.py` (no page field). -/
structure DTok where
  text : String
  x0 : ℚ
  x1 : ℚ
  y0 : ℚ
  y1 : ℚ
deriving DecidableEq, Repr

/-- `Row` dataclass of `debug_dump.py`. -/
structure DRow where
  y : ℚ
  toks : List DTok
deriving DecidableEq, Repr

/-- Word dictionary as consumed by `debug_dump.py` (`Option` models an
absent or `None` entry). -/
structure DWord where
  text : Option String
  x0 : Option ℚ
  x1 : Option ℚ
  top : Option ℚ
  bottom : Option ℚ
deriving DecidableEq, Repr

/-- `_to_str` of `debug_dump.py`: stringify (`None` becomes the empty
string) and strip. -/
def to_str (v : Option String) : String := pyStrip (v.getD "")

/-- `_to_float` of `debug_dump.py`: parse with a default on failure. -/
def to_float (v : Option ℚ) (default : ℚ) : ℚ := v.getD default

/-- Sort the tokens of a `debug_dump` row by `x0`. -/
def sortDToksByX0 (toks : List DTok) : List DTok :=
  pySort (fun a b => decide (a.x0 ≤ b.x0)) toks

/-- The accumulator loop of `group_words_into_rows`. -/
def dGroupLoop (yTol : ℚ) (cur : Option DRow) : List DWord → List DRow
  | [] =>
    match cur with
    | none => []
    | some r => [{ r with toks := sortDToksByX0 r.toks }]
  | w :: ws =>
    let t := to_str w.text
    if t = "" then dGroupLoop yTol cur ws
    else
      let top := to_float w.top 0
      let x0 := to_float w.x0 0
      let x1 := to_float w.x1 x0
      let bottom := to_float w.bottom (top + 8)
      let tok : DTok := ⟨t, x0, x1, top, bottom⟩
      match cur with
      | none => dGroupLoop yTol (some ⟨top, [tok]⟩) ws
      | some r =>
        if yTol < |top - r.y| then
          { r with toks := sortDToksByX0 r.toks } :: dGroupLoop yTol (some ⟨top, [tok]⟩) ws
        else
          dGroupLoop yTol (some { r with toks := r.toks ++ [tok] }) ws

/-- `group_words_into_rows` of `debug_dump.py`. -/
def group_words_into_rows (words : List DWord) (yTol : ℚ) : List DRow :=
  dGroupLoop yTol none words

/-- One code pair found by `_iter_code_pairs`: the indexed subject token and
the indexed number token. -/
abbrev CodePair := (Nat × Tok) × (Nat × Tok)

/-- First branch of `_iter_code_pairs`: `PREFIX NUMBER` adjacency. -/
def pairCond1 (a b : Nat × Tok) : Bool :=
  alpha2B a.2.text && numTokB b.2.text

/-- Second branch of `_iter_code_pairs`: `PREFIX SEP NUMBER`. -/
def pairCond2 (a b c : Nat × Tok) : Bool :=
  alpha2B a.2.text && sepTokB b.2.text && numTokB c.2.text

/-- The scanning loop of `_iter_code_pairs` over the indexed token list:
consume two tokens on a direct match, three on a separated match, else
advance by one. -/
def iterPairsAux : List (Nat × Tok) → List CodePair
  | [] => []
  | [_] => []
  | [a, b] => if pairCond1 a b then [(a, b)] else []
  | a :: b :: c :: rest2 =>
    if pairCond1 a b then (a, b) :: iterPairsAux (c :: rest2)
    else if pairCond2 a b c then (a, c) :: iterPairsAux rest2
    else iterPairsAux (b :: c :: rest2)

/-- `_iter_code_pairs`. -/
def iter_code_pairs (toks : List Tok) : List CodePair :=
  iterPairsAux toks.enum

/-- `_looks_like_title_word`. -/
def looks_like_title_word (s : String) : Bool :=
  s.data.any (fun c => c.isLower) ||
    (!s.data.isEmpty && s.data.all (fun c => c.isAlpha) && decide (5 ≤ s.data.length))

/-- Completion of a `_clean_title_prefix` alternative: after `k` keyword
characters, require `\s*[:\-]\s*` and return the total match length. -/
def ctpTail (l : List Char) (k : Nat) : Option Nat :=
  let r1 := l.drop k
  let w1 := r1.takeWhile isPySpace
  match r1.drop w1.length with
  | c :: _ =>
    if c = ':' || c = '-' then
      let r2 := r1.drop (w1.length + 1)
      let w2 := r2.takeWhile isPySpace
      some (k + w1.length + 1 + w2.length)
    else none
  | [] => none

/-- Match `FIRST\s+TOPICS` at the head of `l`, returning its length. -/
def ctpTwoWord (l : List Char) (first : String) : Option Nat :=
  if listStartsWithCI l first.data then
    let r := l.drop first.data.length
    let w := r.takeWhile isPySpace
    if !w.isEmpty && listStartsWithCI (r.drop w.length) "TOPICS".data then
      some (first.data.length + w.length + 6)
    else none
  else none

/-- `_clean_title_prefix`: drop a leading `ST:`/`SPECIAL TOPICS:`-style
marker (alternatives tried in the source's order), then strip. -/
def clean_title_pfx (s : String) : String :=
  let l := s.data
  let alt1 : Option Nat :=
    if listStartsWithCI l "ST".data then ctpTail l 2 else none
  let alt2 : Option Nat :=
    match ctpTwoWord l "SPECIAL" with
    | some k => ctpTail l k
    | none => none
  let alt3 : Option Nat :=
    match ctpTwoWord l "SELECTED" with
    | some k => ctpTail l k
    | none => none
  let alt4 : Option Nat :=
    if listStartsWithCI l "TOPICS".data then ctpTail l 6 else none
  match (((alt1.orElse (fun _ => alt2)).orElse (fun _ => alt3)).orElse
      (fun _ => alt4)) with
  | some n => pyStrip ⟨l.drop n⟩
  | none => pyStrip s

/-- State threaded through the same-row title scan: accumulated title
tokens, `title_left_x`, `credits_x0` and the `started_title` flag. -/
structure TitleScanSt where
  titleTokens : List String
  titleLeftX : Option ℚ
  creditsX0 : Option ℚ
  startedTitle : Bool
deriving DecidableEq, Repr

/-- The `for t in right` loop scanning the anchor row to the right of the
course number (`continue`/`break` structure of the source preserved; the
tail of the list stands in for the `t_idx + 1` lookahead of
`is_in_progress_phrase`). -/
def sameRowScan (codeEndX : ℚ) (nextPairX0 : Option ℚ) (titleMinX : Option ℚ)
    (st : TitleScanSt) : List Tok → TitleScanSt
  | [] => st
  | t :: more =>
    if t.x0 ≤ codeEndX + 1 then
      sameRowScan codeEndX nextPairX0 titleMinX st more
    else if (match nextPairX0 with
             | some nx => decide (nx - 1 ≤ t.x0)
             | none => false) then st
    else if FLAG_SINGLE_LETTERS.contains (pyUpper (pyStrip t.text)) then
      sameRowScan codeEndX nextPairX0 titleMinX st more
    else
      let upTok := pyUpper (pyStrip t.text)
      let inprogPhrase :=
        match more with
        | t2 :: _ => pyUpper (pyStrip t.text) = "IN" && pyUpper (pyStrip t2.text) = "PROGRESS"
        | [] => false
      if (is_stop_token t.text || levelTokB t.text || urlSearchB t.text || inprogPhrase)
          && st.startedTitle then st
      else if st.startedTitle && (gradeStrictB t.text || gradeLooseB t.text) then st
      else if !st.startedTitle && (PRETITLE_TOKENS.contains upTok || levelTokB t.text) then
        sameRowScan codeEndX nextPairX0 titleMinX st more
      else if (match titleMinX with
               | some mx => decide (t.x0 < mx - 1)
               | none => false) then
        sameRowScan codeEndX nextPairX0 titleMinX st more
      else if creditsTokB t.text then
        { st with creditsX0 := some t.x0 }
      else
        let tlx := match st.titleLeftX with
          | none => some t.x0
          | some v => some v
        let started := if !st.startedTitle then looks_like_title_word t.text else true
        if !started && (upTok = "ST" || upTok = "ST:") then
          sameRowScan codeEndX nextPairX0 titleMinX
            { st with titleLeftX := tlx, startedTitle := started } more
        else
          sameRowScan codeEndX nextPairX0 titleMinX
            { st with titleTokens := st.titleTokens ++ [t.text],
                      titleLeftX := tlx, startedTitle := started } more

/-- State of the continuation-row stitching loop. -/
structure StitchSt where
  titleTokens : List String
  creditsX0 : Option ℚ
deriving DecidableEq, Repr

/-- The `for k, t in enumerate(aligned)` loop of the stitching phase;
`rightTokens` is indexed with the counter `k` exactly as the source does.
Returns the updated tokens, `credits_x0` and the `stop_hit` flag. -/
def stitchInner (rightTokens : List Tok) (k : Nat) (acc : List String)
    (cx : Option ℚ) : List Tok → List String × Option ℚ × Bool
  | [] => (acc, cx, false)
  | t :: more =>
    if FLAG_SINGLE_LETTERS.contains (pyUpper (pyStrip t.text)) then
      stitchInner rightTokens (k + 1) acc cx more
    else if is_stop_token t.text || levelTokB t.text || urlSearchB t.text ||
        gradeStrictB t.text || gradeLooseB t.text then (acc, cx, true)
    else if (match rightTokens.get? (k + 1) with
             | some b => pyUpper (pyStrip t.text) = "IN" && pyUpper (pyStrip b.text) = "PROGRESS"
             | none => false) then (acc, cx, true)
    else if creditsTokB t.text then
      (acc, (match cx with | some c => some c | none => some t.x0), true)
    else stitchInner rightTokens (k + 1) (acc ++ [t.text]) cx more

/-- The `while j < n and joined_rows < 3` continuation-stitching loop. -/
def stitchLoop (codeEndX : ℚ) (titleMinX : Option ℚ) (titleLeftX : Option ℚ)
    (j : Nat) (st : StitchSt) : List Row → StitchSt
  | [] => st
  | nextRow :: more =>
    if 3 ≤ j then st
    else
      let ntext := pyStrip (row_text nextRow)
      if is_admin_row ntext || !(iter_code_pairs nextRow.toks).isEmpty then st
      else
        let ntoks := nextRow.toks
        let rt0 := ntoks.filter (fun t => decide (codeEndX + 1 < t.x0))
        let rt1 : List Tok := match titleMinX with
          | some mx => rt0.filter (fun t => decide (mx - 1 ≤ t.x0))
          | none => rt0
        let aligned : List Tok := match titleLeftX with
          | some lx => rt1.filter (fun t => decide (|t.x0 - lx| ≤ 24))
          | none => []
        if aligned.isEmpty then st
        else
          let rt2 : List Tok := match titleMinX with
            | some mx => rt1.filter (fun t => decide (mx - 1 ≤ t.x0))
            | none => rt1
          match rt2 with
          | [] => stitchLoop codeEndX titleMinX titleLeftX j st more
          | fr :: _ =>
            if (match titleLeftX with
                | some lx => decide (40 < |fr.x0 - lx|)
                | none => false) then st
            else
              let res := stitchInner rt2 0 st.titleTokens st.creditsX0 aligned
              if res.2.2 then { titleTokens := res.1, creditsX0 := res.2.1 }
              else stitchLoop codeEndX titleMinX titleLeftX (j + 1)
                { titleTokens := res.1, creditsX0 := res.2.1 } more

/-- Extract the grade string for a successful match of
`(?<!\w)(A|B|C|D|F)\s*([+\-])?(?!\w)` starting at letter `c` with `rest`
the following characters (the backtracking of `\s*([+\-])?` resolved). -/
def extractGrade (c : Char) (rest : List Char) : String :=
  let r1 := rest.dropWhile isPySpace
  match r1 with
  | s :: r2 =>
    if (s = '+' || s = '-') &&
        !(match r2 with | d :: _ => isWordChar d | [] => false) then ⟨[c, s]⟩
    else ⟨[c]⟩
  | [] => ⟨[c]⟩

/-- Scan for `(?<!\w)(A|B|C|D|F)\s*([+\-])?(?!\w)` (the spaced letter-grade
search applied to upper-cased joined text); a candidate letter position
succeeds exactly when neither neighbour is a word character. -/
def searchLetterAux (prev : Option Char) : List Char → Option String
  | [] => none
  | c :: rest =>
    if ['A', 'B', 'C', 'D', 'F'].contains c &&
        !(match prev with | some p => isWordChar p | none => false) &&
        !(match rest with | d :: _ => isWordChar d | [] => false) then
      some (extractGrade c rest)
    else searchLetterAux (some c) rest

/-- String-level spaced letter-grade search. -/
def searchLetterGrade (s : String) : Option String := searchLetterAux none s.data

/-- The token region right of the credits marker scanned for a grade. -/
def gradeRegion (cx : ℚ) (startRow : Row) : List Tok :=
  startRow.toks.filter (fun t => decide (cx - 1 < t.x0) && !levelTokB t.text)

/-- Join token texts, upper-case, and normalise the minus sign (the
`" ".join(...).upper().replace("−", "-")` idiom of the grade scans). -/
def joinedTokens (toks : List Tok) : String :=
  replaceMinus (pyUpper (String.intercalate " " (toks.map (fun t => t.text))))

/-- `strict_grade_right_of_credits`. -/
def strict_grade_right_of_credits (creditsX0 : Option ℚ) (startRow : Row) :
    Option String :=
  match creditsX0 with
  | none => none
  | some cx =>
    match (gradeRegion cx startRow).find? (fun t => gradeStrictB t.text) with
    | some t => some (replaceMinus (pyUpper t.text))
    | none =>
      if containsStr (joinedTokens (gradeRegion cx startRow)) "IN PROGRESS" then
        some "IN PROGRESS"
      else
        match searchLetterGrade (joinedTokens (gradeRegion cx startRow)) with
        | some g => some (pyUpper g)
        | none =>
          match (gradeRegion cx startRow).find? (fun t => gradeLooseB t.text) with
          | some t => some (pyUpper t.text)
          | none => none

/-- Tokens ignored by the left-of-code grade scan. -/
def LEFT_IGNORE : List String :=
  ["GRD", "GR", "CR", "CRED", "CRED:", "CREDIT", "CREDITS", "PTS", "R", "HRS", "HOURS"]

/-- The token region strictly left of the course code. -/
def leftRegion (codeX0 : ℚ) (startRow : Row) : List Tok :=
  startRow.toks.filter (fun t => decide (t.x1 < codeX0 - 1))

/-- `grade_left_of_code`. -/
def grade_left_of_code (codeX0 : ℚ) (startRow : Row) : Option String :=
  match (leftRegion codeX0 startRow).find? (fun t =>
      !(LEFT_IGNORE.contains (rstripColon (pyUpper (pyStrip t.text)))) &&
        gradeStrictB t.text) with
  | some t => some (replaceMinus (pyUpper t.text))
  | none =>
    if containsStr (joinedTokens (leftRegion codeX0 startRow)) "IN PROGRESS" then
      some "IN PROGRESS"
    else
      match searchLetterGrade (joinedTokens (leftRegion codeX0 startRow)) with
      | some g => some (pyUpper g)
      | none =>
        match (leftRegion codeX0 startRow).find? (fun t => gradeLooseB t.text) with
        | some t => some (pyUpper t.text)
        | none => none

/-- The joined text of the three-row grade window (anchor row plus the next
two rows, upper-cased, minus signs normalised). -/
def windowText (row : Row) (rest : List Row) : String :=
  replaceMinus (pyUpper
    (String.intercalate " " ((row :: rest.take 2).map row_text)))

/-- The three-row window fallback for a grade. -/
def windowGrade (row : Row) (rest : List Row) : String :=
  if containsStr (windowText row rest) "IN PROGRESS" then "IN PROGRESS"
  else
    match searchLetterGrade (windowText row rest) with
    | some g => pyUpper g
    | none => "none"

/-- `_title_column_x_per_page`: per page, the `x0` of the `Title` token on
the last header row mentioning SUBJECT, TITLE and GRADE. -/
def title_column_x_per_page (rows : List Row) (p : Nat) : Option ℚ :=
  rows.foldl (fun acc r =>
    if r.page = p then
      let txt := pyUpper (row_text r)
      if containsStr txt "SUBJECT" && containsStr txt "TITLE" && containsStr txt "GRADE" then
        match r.toks.find? (fun t => pyUpper (pyStrip t.text) = "TITLE") with
        | some t => some t.x0
        | none => acc
      else acc
    else acc) none

/-- The record built for one allowed code pair on an anchor row. -/
def pairRecord (titleMinX : Option ℚ) (row : Row) (rest : List Row)
    (toks : List Tok) (pairs : List CodePair) (pr : CodePair) :
    String × String × String :=
  let pfx := pyUpper pr.1.2.text
  let number := pyUpper pr.2.2.text
  let code := pfx ++ " " ++ number
  let codeX0 := pr.1.2.x0
  let codeEndX := pr.2.2.x1
  let nextPairX0 := (pairs.find? (fun q => decide (pr.1.1 < q.1.1))).map (fun q => q.1.2.x0)
  let right := toks.drop (pr.2.1 + 1)
  let st1 := sameRowScan codeEndX nextPairX0 titleMinX ⟨[], none, none, false⟩ right
  let st2 := stitchLoop codeEndX titleMinX st1.titleLeftX 0
    ⟨st1.titleTokens, st1.creditsX0⟩ rest
  let title := clean_title_pfx
    (stripCharsSet [' ', '-', ':', ';', ','] (String.intercalate " " st2.titleTokens))
  let grade :=
    match strict_grade_right_of_credits st2.creditsX0 row with
    | some g => g
    | none =>
      match grade_left_of_code codeX0 row with
      | some g => g
      | none => windowGrade row rest
  (code, title, grade)

/-- The title scan of the cross-row stitch branch (`for t in ntoks[1:]`). -/
def crossTitleScan (codeEndX : ℚ) (titleMinX : Option ℚ)
    (st : TitleScanSt) : List Tok → TitleScanSt
  | [] => st
  | t :: more =>
    if t.x0 ≤ codeEndX + 1 then crossTitleScan codeEndX titleMinX st more
    else
      let upTok := pyUpper (pyStrip t.text)
      if FLAG_SINGLE_LETTERS.contains (pyUpper (pyStrip t.text)) then
        crossTitleScan codeEndX titleMinX st more
      else if is_stop_token t.text || levelTokB t.text || urlSearchB t.text then st
      else if (match titleMinX with
               | some mx => decide (t.x0 < mx - 1)
               | none => false) then
        crossTitleScan codeEndX titleMinX st more
      else if creditsTokB t.text then { st with creditsX0 := some t.x0 }
      else
        let tlx := match st.titleLeftX with
          | none => some t.x0
          | some v => some v
        let started := if !st.startedTitle then looks_like_title_word t.text else true
        if !started && (upTok = "ST" || upTok = "ST:") then
          crossTitleScan codeEndX titleMinX
            { st with titleLeftX := tlx, startedTitle := started } more
        else
          crossTitleScan codeEndX titleMinX
            { st with titleTokens := st.titleTokens ++ [t.text],
                      titleLeftX := tlx, startedTitle := started } more

/-- The token region right of the credits marker in the cross-row branch. -/
def crossRegion (cx : ℚ) (ntoks : List Tok) : List Tok :=
  ntoks.filter (fun t => decide (cx - 1 < t.x0) && !levelTokB t.text)

/-- The grade string of the cross-row branch (`grade or "none"`). -/
def crossGrade (creditsX0 : Option ℚ) (ntoks : List Tok) : String :=
  match creditsX0 with
  | none => "none"
  | some cx =>
    match (crossRegion cx ntoks).find? (fun t => gradeStrictB t.text) with
    | some t => replaceMinus (pyUpper t.text)
    | none =>
      if containsStr
          (pyUpper (String.intercalate " "
            ((crossRegion cx ntoks).map (fun t => t.text))))
          "IN PROGRESS" then "IN PROGRESS"
      else "none"

/-- The cross-row stitch branch of `_scan_rows_for_courses` (a prefix token
at the end of one row, its number at the start of the next). -/
def crossRowRecs (allowed : List String) (tx : Nat → Option ℚ) (toks : List Tok)
    (rest : List Row) : List (String × String × String) :=
  match rest with
  | [] => []
  | nextRow :: _ =>
    if is_admin_row (row_text nextRow) then []
    else
      match toks.getLast? with
      | none => []
      | some last =>
        if alpha2B last.text then
          match nextRow.toks with
          | [] => []
          | nt0 :: ntRest =>
            if numTokB nt0.text then
              if allowed.contains (pyUpper last.text) then
                [(pyUpper last.text ++ " " ++ pyUpper nt0.text,
                  clean_title_pfx
                    (stripCharsSet [' ', '-', ':', ';', ',']
                      (String.intercalate " "
                        (crossTitleScan nt0.x1 (tx nextRow.page)
                          ⟨[], none, none, false⟩ ntRest).titleTokens)),
                  crossGrade
                    (crossTitleScan nt0.x1 (tx nextRow.page)
                      ⟨[], none, none, false⟩ ntRest).creditsX0 nextRow.toks)]
              else []
            else []
        else []

/-- Processing of one row of the main `while i < n` loop of
`_scan_rows_for_courses` (`rest` is the list of subsequent rows, used for
stitching, the grade window and the cross-row branch). -/
def processRow (allowed : List String) (tx : Nat → Option ℚ) (row : Row)
    (rest : List Row) : List (String × String × String) :=
  let txt := pyStrip (row_text row)
  if is_admin_row txt then []
  else if row.toks.length < 2 then []
  else
    let toks := row.toks
    let pairs := iter_code_pairs toks
    let titleMinX := tx row.page
    let aPairs := pairs.filter (fun pr => allowed.contains (pyUpper pr.1.2.text))
    let recs := aPairs.map (fun pr => pairRecord titleMinX row rest toks pairs pr)
    if aPairs.isEmpty then crossRowRecs allowed tx toks rest
    else recs

/-- The main loop over all rows. -/
def scanLoop (allowed : List String) (tx : Nat → Option ℚ) :
    List Row → List (String × String × String)
  | [] => []
  | r :: rest => processRow allowed tx r rest ++ scanLoop allowed tx rest

/-- Was `IN PROGRESS` seen on any row of the document? -/
def inprogAnywhere (rows : List Row) : Bool :=
  rows.any (fun r => inprogSearchB (pyUpper (pyStrip (row_text r))))

/-- `_scan_rows_for_courses`. -/
def scan_rows_for_courses (rows : List Row) (allowed : List String) :
    List (String × String × String) :=
  let tx := title_column_x_per_page rows
  let out := scanLoop allowed tx rows
  if inprogAnywhere rows then
    out.map (fun tr => (tr.1, tr.2.1, if tr.2.2 = "none" then "IN PROGRESS" else tr.2.2))
  else out

/-- Consume exactly `n` digits, returning the remainder. -/
def dropDigitsN : Nat → List Char → Option (List Char)
  | 0, l => some l
  | n + 1, c :: rest => if c.isDigit then dropDigitsN n rest else none
  | _ + 1, [] => none

/-- Match the US-phone shape `\(?\d{3}\)?[\s\-]\d{3}[\s\-]\d{4}` at the head. -/
def phoneMatchAt (l : List Char) : Bool :=
  let l1 := match l with
    | '(' :: r => r
    | _ => l
  match dropDigitsN 3 l1 with
  | none => false
  | some r1 =>
    let r2 := match r1 with
      | ')' :: t => t
      | _ => r1
    match r2 with
    | s :: r3 =>
      (isPySpace s || s = '-') &&
        (match dropDigitsN 3 r3 with
         | some (s2 :: r4) => (isPySpace s2 || s2 = '-') && (dropDigitsN 4 r4).isSome
         | _ => false)
    | [] => false

/-- Leftmost index at which the phone pattern matches. -/
def phoneSearchAux (i : Nat) : List Char → Option Nat
  | [] => none
  | c :: rest =>
    if phoneMatchAt (c :: rest) then some i else phoneSearchAux (i + 1) rest

/-- `re.search` of the phone pattern, returning `m.start()`. -/
def phoneSearch (s : String) : Option Nat := phoneSearchAux 0 s.data

/-- String find of a literal (`str.find`), as used on the upper-cased
university candidate. -/
def strFind (hay pat : String) : Option Nat := listFindSub pat.data hay.data

/-- `_cut_university`: truncate at the earliest boilerplate marker or
phone-number occurrence, then strip `" -,:;"`. -/
def cut_university (s : String) : String :=
  let up := pyUpper s
  let hardTokens : List String :=
    ["TRANSCRIPT", "EXPLANATION", "GRADE", "GRADES", "REGISTRAR", "OFFICE",
     "PHONE", "TEL", "FAX", "EMAIL", "P.O.", "PO BOX", "BOX", "WWW", "HTTP"]
  let cut1 := hardTokens.filterMap (fun tok => strFind up tok)
  let cut2 := match phoneSearch s with
    | some i => cut1 ++ [i]
    | none => cut1
  let s2 : String := match cut2.min? with
    | some m => ⟨s.data.take m⟩
    | none => s
  stripCharsSet [' ', '-', ',', ':', ';'] s2

/-- Remove a trailing parenthetical that contains a digit, together with the
whitespace around it (`re.sub(r"\s*\((?=[^)]*[0-9])[^)]*\)\s*$", "", s)`). -/
def dropTrailingParen (l : List Char) : List Char :=
  let r := l.reverse
  let r1 := r.dropWhile isPySpace
  match r1 with
  | ')' :: r2 =>
    let inner := r2.takeWhile (fun c => c ≠ '(')
    (match r2.drop inner.length with
     | '(' :: r3 =>
       if inner.any Char.isDigit && !inner.contains ')' then
         (r3.dropWhile isPySpace).reverse
       else l
     | _ => l)
  | _ => l

/-- Emit a finished whitespace run: runs of length at least two collapse to
a single space, a lone whitespace character is kept as-is. -/
def flushWsRun (pending : List Char) : List Char :=
  match pending with
  | [] => []
  | [c] => [c]
  | _ => [' ']

/-- `re.sub(r"\s{2,}", " ", s)` over the character list. -/
def collapseWsAux (pending : List Char) : List Char → List Char
  | [] => flushWsRun pending
  | c :: rest =>
    if isPySpace c then collapseWsAux (c :: pending) rest
    else flushWsRun pending ++ c :: collapseWsAux [] rest

/-- `_clean_student_name`. -/
def clean_student_name (s : Option String) : Option String :=
  match s with
  | none => none
  | some s0 =>
    if s0 = "" then some ""
    else
      let s1 : String :=
        if containsStr s0 "@" then ⟨s0.data.takeWhile (fun c => c ≠ '@')⟩ else s0
      let s2 : String := ⟨dropTrailingParen s1.data⟩
      let s3 : String := ⟨collapseWsAux [] s2.data⟩
      let s4 := stripCharsSet [' ', ',', ';'] s3
      if s4 = "" then none else some s4

/-- Character class `[A-Za-z &/]` of the label-value detector. -/
def labelClassChar (c : Char) : Bool :=
  c.isAlpha || c = ' ' || c = '&' || c = '/'

/-- Scanner for the tail of `^[A-Z][A-Za-z &/]+\s:\s`: after at least one
class character, find whitespace followed by a colon and whitespace. -/
def lvScan (haveOne : Bool) : List Char → Bool
  | [] => false
  | x :: xs =>
    (haveOne && isPySpace x &&
      (match xs with
       | ':' :: y :: _ => isPySpace y
       | _ => false)) ||
    (labelClassChar x && lvScan true xs)

/-- `is_label_value` (the `re.search(r"^[A-Z][A-Za-z &/]+\s:\s", s)` test). -/
def is_label_value (s : String) : Bool :=
  match s.data with
  | c :: rest => decide ('A' ≤ c) && decide (c ≤ 'Z') && lvScan false rest
  | [] => false

/-- Does `\s*Page:` start here (the stop marker of the `Record of:` capture)? -/
def pageMarkerAt (l : List Char) : Bool :=
  listStartsWithCI (l.dropWhile isPySpace) "PAGE:".data

/-- Non-greedy capture of `(.+?)` terminated by `\s*Page:.*$` or line end. -/
def captureUntilPage (taken : List Char) : List Char → List Char
  | [] => taken.reverse
  | c :: rest =>
    if pageMarkerAt (c :: rest) && !taken.isEmpty then taken.reverse
    else captureUntilPage (c :: taken) rest

/-- Name pattern 1: `^\s*Record of:\s*(.+?)(?:\s*Page:.*$|$)` on one line. -/
def p1Line (l : List Char) : Option String :=
  let l1 := l.dropWhile isPySpace
  if listStartsWithCI l1 "RECORD OF:".data then
    let rest := (l1.drop 10).dropWhile isPySpace
    match rest with
    | [] => none
    | _ => some ⟨captureUntilPage [] rest⟩
  else none

/-- Word-boundary test between a last captured character and the next one. -/
def boundaryOk (last : Char) (next : Option Char) : Bool :=
  isWordChar last != (match next with
    | some d => isWordChar d
    | none => false)

/-- Backtrack a greedy character-class run (reversed) until the trailing
word boundary holds. -/
def tryShrinkRev : List Char → Option Char → Option (List Char)
  | [], _ => none
  | c :: rest, after =>
    if boundaryOk c after then some (c :: rest) else tryShrinkRev rest (some c)

/-- Character class `[A-Z\s.\-']` (case-insensitive) of name pattern 2. -/
def p2ClassChar (c : Char) : Bool :=
  c.isAlpha || isPySpace c || c = '.' || c = '-' || c = '\x27'

/-- Name pattern 2: `^\s*Issued To:\s*([A-Z][A-Z\s.\-']+)\b.*$` on one line. -/
def p2Line (l : List Char) : Option String :=
  let l1 := l.dropWhile isPySpace
  if listStartsWithCI l1 "ISSUED TO:".data then
    let rest := (l1.drop 10).dropWhile isPySpace
    match rest with
    | c :: r1 =>
      if c.isAlpha then
        let run := r1.takeWhile p2ClassChar
        let afterC : Option Char := match r1.drop run.length with
          | d :: _ => some d
          | [] => none
        match tryShrinkRev run.reverse afterC with
        | some kept => some ⟨c :: kept.reverse⟩
        | none => none
      else none
    | [] => none
  else none

/-- Name patterns 3 and 4: `^\s*<label>\s*:\s*(.+)$` on one line. -/
def labelCapture (label : List Char) (l : List Char) : Option String :=
  let l1 := l.dropWhile isPySpace
  if listStartsWithCI l1 label then
    let r1 := (l1.drop label.length).dropWhile isPySpace
    match r1 with
    | ':' :: r2 =>
      let r3 := r2.dropWhile isPySpace
      match r3 with
      | [] => none
      | _ => some ⟨r3⟩
    | _ => none
  else none

/-- Character class `[A-Za-z'.\-]` of name pattern 5. -/
def p5NameClass (c : Char) : Bool :=
  c.isAlpha || c = '\x27' || c = '.' || c = '-'

/-- Tail `\d{2}[- ]?\d{4}\b` of the id number of name pattern 5. -/
def p5Tail2 (l : List Char) : Bool :=
  match dropDigitsN 2 l with
  | none => false
  | some r =>
    (match dropDigitsN 4 r with
     | some r2 => !(match r2 with
         | d :: _ => isWordChar d
         | [] => false)
     | none => false) ||
    (match r with
     | s :: r2 =>
       (s = '-' || s = ' ') &&
         (match dropDigitsN 4 r2 with
          | some r3 => !(match r3 with
              | d :: _ => isWordChar d
              | [] => false)
          | none => false)
     | [] => false)

/-- After the 2-3 leading id digits: `[- ]?\d{2}[- ]?\d{4}\b`. -/
def p5After1 (r : List Char) : Bool :=
  p5Tail2 r ||
  (match r with
   | s :: r2 => (s = '-' || s = ' ') && p5Tail2 r2
   | [] => false)

/-- Id number `\d{2,3}[- ]?\d{2}[- ]?\d{4}\b` of name pattern 5. -/
def p5IdTail (l : List Char) : Bool :=
  (match dropDigitsN 3 l with
   | some r => p5After1 r
   | none => false) ||
  (match dropDigitsN 2 l with
   | some r => p5After1 r
   | none => false)

/-- Name pattern 5: `^\s*([A-Z][A-Za-z'.\-]+,\s+[A-Z][A-Za-z'.\-]+)\s+<id>\b`. -/
def p5Line (l : List Char) : Option String :=
  let l1 := l.dropWhile isPySpace
  match l1 with
  | c1 :: r1 =>
    if c1.isAlpha then
      let run1 := r1.takeWhile p5NameClass
      if run1.isEmpty then none
      else
        match r1.drop run1.length with
        | ',' :: r2 =>
          let ws := r2.takeWhile isPySpace
          if ws.isEmpty then none
          else
            match r2.drop ws.length with
            | c2 :: r3 =>
              if c2.isAlpha then
                let run2 := r3.takeWhile p5NameClass
                if run2.isEmpty then none
                else
                  let after := r3.drop run2.length
                  let ws2 := after.takeWhile isPySpace
                  if ws2.isEmpty then none
                  else if p5IdTail (after.drop ws2.length) then
                    some ⟨c1 :: run1 ++ ',' :: ws ++ c2 :: run2⟩
                  else none
              else none
            | [] => none
        | _ => none
    else none
  | [] => none

/-- Everything before the last space (`str.rsplit(" ", 1)[0]`). -/
def dropAfterLastSpace (l : List Char) : List Char :=
  let r := l.reverse
  let seg := r.takeWhile (fun c => c ≠ ' ')
  (r.drop (seg.length + 1)).reverse

/-- The post-processing applied to a matched name candidate. -/
def postProcessCand (cand0 : String) : String :=
  let cand := pyStrip cand0
  let cand2 :=
    if containsStr cand "@" then
      let c1 := pyStrip ⟨cand.data.takeWhile (fun c => c ≠ '@')⟩
      if containsStr c1 " " then (⟨dropAfterLastSpace c1.data⟩ : String) else c1
    else cand
  stripCharsSet [' ', ',', ';'] cand2

/-- The `NAME_PATS` cascade searched over the joined window text. -/
def nameSearch (joined : String) : Option String :=
  let lines := splitLines joined
  let found :=
    match lines.findSome? p1Line with
    | some c => some c
    | none =>
      match lines.findSome? p2Line with
      | some c => some c
      | none =>
        match lines.findSome? (labelCapture "STUDENT NAME".data) with
        | some c => some c
        | none =>
          match lines.findSome? (labelCapture "NAME".data) with
          | some c => some c
          | none => lines.findSome? p5Line
  found.map postProcessCand

/-- The university keyword search
`(?i)\b(UNIVERSITY|COLLEGE|INSTITUTE|POLYTECHNIC|COMMUNITY COLLEGE)\b`. -/
def univKeywordB (up : String) : Bool :=
  ["UNIVERSITY", "COLLEGE", "INSTITUTE", "POLYTECHNIC", "COMMUNITY COLLEGE"].any
    (fun w => searchWordB up w)

/-- The keyword-weighted score of a university candidate. -/
def scoreUniv (s : String) : Nat :=
  let up := pyUpper s
  (if containsStr up "STATE UNIVERSITY OF NEW YORK" then 4 else 0) +
  (if containsStr up "COLLEGE AT" then 3 else 0) +
  (if containsStr up "CORTLAND" then 2 else 0) +
  (if containsStr up "UNIVERSITY" then 2 else 0) +
  (if containsStr up "COLLEGE" then 1 else 0) +
  (if 10 ≤ up.length && up.length ≤ 90 then 1 else 0)

/-- `_extract_student_university`. -/
def extract_student_university (rows : List Row) : Option String × Option String :=
  let window := rows.filter (fun r =>
    r.page = 1 || r.page = 2 || r.page = 3 || r.page = 4)
  let joined := String.intercalate " \n" (window.map row_text)
  let student0 := nameSearch joined
  let candidates := window.filterMap (fun r =>
    let txt := pyStrip (row_text r)
    let up := pyUpper txt
    if containsStr up "INSTITUTION INFORMATION CONTINUED" || is_label_value txt then
      none
    else if univKeywordB up then
      let cut := cut_university txt
      if 6 ≤ cut.length && cut.length ≤ 200 then some cut else none
    else none)
  let base := candidates.find? (fun c =>
    containsStr (pyUpper c) "STATE UNIVERSITY OF NEW YORK")
  let addon := candidates.find? (fun c =>
    containsStr (pyUpper c) "COLLEGE AT" || endsWithStr (pyUpper c) "CORTLAND")
  let fullName : Option String :=
    match base, addon with
    | some b, some a => if !containsStr b a then some (pyStrip (b ++ " " ++ a)) else none
    | _, _ => none
  let university : Option String :=
    match fullName with
    | some f => some f
    | none =>
      match pySort (fun a b => decide (scoreUniv b ≤ scoreUniv a)) candidates with
      | [] => none
      | c :: _ => some c
  (clean_student_name student0, university)

/-- `run_file`: matches, (student, university) and the `ocr_used` flag. -/
def run_file (env : Env) (subjects : List String) (preferOcr : Bool) :
    List (String × String × String) × (Option String × Option String) × Bool :=
  let allowed := allowed_set subjects
  let extracted := extract_rows env preferOcr
  (scan_rows_for_courses extracted.1 allowed,
   extract_student_university extracted.1, extracted.2)

/-- Consume exactly `n` digits, also returning them. -/
def takeDigitsExact : Nat → List Char → Option (List Char × List Char)
  | 0, l => some ([], l)
  | n + 1, c :: rest =>
    if c.isDigit then (takeDigitsExact n rest).map (fun p => (c :: p.1, p.2)) else none
  | _ + 1, [] => none

/-- Match `(\d{3,4})([A-Z]?)$` anchored at the head of `l` (greedy digit
group first, then the optional trailing capital). -/
def skAt (l : List Char) : Option (List Char × List Char) :=
  let tryN := fun (n : Nat) =>
    match takeDigitsExact n l with
    | some (ds, r) =>
      (match r with
       | [c] => if 'A' ≤ c && c ≤ 'Z' then some (ds, [c]) else none
       | [] => some (ds, ([] : List Char))
       | _ => none)
    | none => none
  match tryN 4 with
  | some v => some v
  | none => tryN 3

/-- `re.search` of the sort-key pattern: leftmost start position. -/
def sortKeySearch : List Char → Option (List Char × List Char)
  | [] => none
  | c :: rest =>
    match skAt (c :: rest) with
    | some v => some v
    | none => sortKeySearch rest

/-- Digits of a numeral to a natural number. -/
def digitsToNat (ds : List Char) : Nat :=
  ds.foldl (fun acc c => acc * 10 + (c.toNat - 48)) 0

/-- `sort_key` of `main`: `(int(number), suffix)` or `(9999, "")`. -/
def sort_key (code : String) : Nat × String :=
  match sortKeySearch code.data with
  | some (ds, ls) => (digitsToNat ds, (⟨ls⟩ : String))
  | none => (9999, "")

/-- The `seen`-set deduplication loop of `main` (key: the whole
`(code, title, grade)` triple). -/
def dedupLoop (seen : List (String × String × String)) :
    List (String × String × String) → List (String × String × String)
  | [] => []
  | tr :: rest =>
    if seen.contains tr then dedupLoop seen rest
    else tr :: dedupLoop (tr :: seen) rest

/-- Deduplicated matches in first-seen order. -/
def dedupMatches (ms : List (String × String × String)) :
    List (String × String × String) :=
  dedupLoop [] ms

/-- The printed course line of `main`. -/
def formatLine (tr : String × String × String) : String :=
  "  " ++ tr.1 ++ " \u2014 " ++ tr.2.1 ++ " \u2014 grade: " ++ tr.2.2

/-- Python tuple order on sort keys. -/
def keyLe (a b : Nat × String) : Bool :=
  decide (a.1 < b.1) || (a.1 = b.1 && strLe a.2 b.2)

/-- The deduplicated course entries in final presentation order
(stable-sorted by `sort_key` of the code, as `sorted(entries, ...)`). -/
def presentEntries (ms : List (String × String × String)) :
    List (String × String × String) :=
  pySort (fun a b => keyLe (sort_key a.1) (sort_key b.1)) (dedupMatches ms)

/-- The course lines printed by `main` for a given match list. -/
def presentLines (ms : List (String × String × String)) : List String :=
  (presentEntries ms).map formatLine

/-- Claim C9: grouping the same word list twice yields identical Row
sequences — `group_words_into_rows` is a pure function of its input word
list (it reads no other state), so any two runs on equal inputs produce
equal outputs. -/
theorem c9_grouping_deterministic (ws1 ws2 : List DWord) (yTol1 yTol2 : ℚ)
    (h : ws1 = ws2) (hy : yTol1 = yTol2) :
    group_words_into_rows ws1 yTol1 = group_words_into_rows ws2 yTol2 := by
  rw [h, hy]

/-- Witness for C9 at a concrete word list. -/
theorem c9_witness :
    group_words_into_rows [⟨some "a", some 1, some 2, some 0, some 8⟩] 3 =
      group_words_into_rows [⟨some "a", some 1, some 2, some 0, some 8⟩] 3 :=
  c9_grouping_deterministic _ _ _ _ rfl rfl

theorem extract_rows_ocr_unavailable (env : OcrEnv) (yTol : ℚ)
    (h : env.paddleAvailable = false ∨ env.convertAvailable = false ∨
      env.initOk = false ∨ env.convertOk = false) :
    extract_rows_ocr env yTol = [] := by
  unfold extract_rows_ocr
  rcases h with h | h | h | h <;> simp [h]

theorem scan_rows_nil (allowed : List String) :
    scan_rows_for_courses [] allowed = [] := by
  unfold scan_rows_for_courses scanLoop inprogAnywhere
  simp

/-- Claim C8: with the primary extractor yielding no rows and the OCR stack
unavailable (library missing, or engine initialisation / conversion
failing), row extraction returns the empty sequence and `run_file` returns
an empty course list and null student/university, with no error raised. -/
theorem c8_unavailable_degrades_gracefully (env : Env) (subjects : List String)
    (preferOcr : Bool)
    (hpdf : extract_rows_pdfplumber env.pdfPages (3.2 : ℚ) = [])
    (hocr : env.ocr.paddleAvailable = false ∨ env.ocr.convertAvailable = false ∨
      env.ocr.initOk = false ∨ env.ocr.convertOk = false) :
    extract_rows env preferOcr = ([], false) ∧
      run_file env subjects preferOcr = ([], (none, none), false) := by
  have hocr' := extract_rows_ocr_unavailable env.ocr 6 hocr
  have hex : extract_rows env preferOcr = ([], false) := by
    unfold extract_rows
    by_cases hf : (preferOcr || env.forceFlagEnv) = true
    · simp [hf, hocr']
    · rw [Bool.not_eq_true] at hf
      simp [hf, hpdf, hocr']
  refine ⟨hex, ?_⟩
  unfold run_file
  rw [hex]
  refine Prod.ext ?_ (Prod.ext ?_ rfl) <;> simp
  · exact scan_rows_nil _
  · with_unfolding_all decide

/-- Witness for C8: pdfplumber absent, PaddleOCR import failing. -/
theorem c8_witness :
    extract_rows ⟨false, none, ⟨false, true, true, true, []⟩⟩ false = ([], false) ∧
      run_file ⟨false, none, ⟨false, true, true, true, []⟩⟩ ["math"] false =
        ([], (none, none), false) :=
  c8_unavailable_degrades_gracefully ⟨false, none, ⟨false, true, true, true, []⟩⟩
    ["math"] false rfl (Or.inl rfl)

/-- Input of the C1 counterexample: pdfplumber missing, the OCR stack fully
available and recognising a single word that is no course code. -/
def envC1 : Env :=
  ⟨false, none, ⟨true, true, true, true,
    [some [⟨(0, 0), (5, 0), (5, 2), (0, 2), "hello"⟩]]⟩⟩

/-- Claim C1 counterexample: on `envC1` the reported text source is "ocr"
(`ocr_used = true`) although the OCR result yields no more course matches
than the primary extraction (both course counts are zero), refuting the
claimed strict-improvement condition. -/
theorem c1_counterexample :
    (run_file envC1 ["math"] false).2.2 = true ∧
      (scan_rows_for_courses (extract_rows_ocr envC1.ocr (6 : ℚ))
          (allowed_set ["math"])).length ≤
        (scan_rows_for_courses (extract_rows_pdfplumber envC1.pdfPages (3.2 : ℚ))
          (allowed_set ["math"])).length := by
  constructor
  · with_unfolding_all decide
  · with_unfolding_all decide

/-- Claim C1 (amended): the reported text source is "ocr" exactly when the
primary pdfplumber extraction contributes no rows (because OCR is forced by
flag or environment override, or the primary row list is empty) and the OCR
extraction yields at least one row; no comparison of course counts is
performed. -/
theorem c1_amended_ocr_source_iff (env : Env) (subjects : List String)
    (preferOcr : Bool) :
    (run_file env subjects preferOcr).2.2 = true ↔
      ((preferOcr || env.forceFlagEnv) = true ∨
          extract_rows_pdfplumber env.pdfPages (3.2 : ℚ) = []) ∧
        extract_rows_ocr env.ocr (6 : ℚ) ≠ [] := by
  unfold run_file extract_rows
  by_cases hf : (preferOcr || env.forceFlagEnv) = true
  · simp only [hf, if_true]
    by_cases ho : extract_rows_ocr env.ocr (6 : ℚ) = [] <;> simp [ho]
  · rw [Bool.not_eq_true] at hf
    simp only [hf, Bool.false_eq_true, if_false]
    by_cases hp : extract_rows_pdfplumber env.pdfPages (3.2 : ℚ) = []
    · by_cases ho : extract_rows_ocr env.ocr (6 : ℚ) = [] <;> simp [hp, ho]
    · simp [hp]

/-- Input of the C2 counterexample: the primary extraction yields one short
row with no course match. -/
def envC2 : Env :=
  ⟨false, some [[⟨some "hi", some 1, some 2, some 0, some 8⟩]],
    ⟨true, true, true, true, []⟩⟩

/-- A rich OCR environment that would recognise a MATH 101 row. -/
def ocrRich : OcrEnv :=
  ⟨true, true, true, true,
    [some [⟨(0, 0), (40, 0), (40, 2), (0, 2), "MATH"⟩,
           ⟨(45, 0), (60, 0), (60, 2), (45, 2), "101"⟩]]⟩

/-- Claim C2 counterexample: the primary extraction of `envC2` yields text
far shorter than 400 characters and zero course matches, so the claim
requires the OCR fallback to run; yet with an OCR stack that would yield a
course row, `_extract_rows` returns the primary rows with `ocr_used = false`
— the OCR path is never taken because the primary row list is non-empty. -/
theorem c2_counterexample :
    (String.intercalate " "
        ((extract_rows_pdfplumber envC2.pdfPages (3.2 : ℚ)).map row_text)).length < 400 ∧
      scan_rows_for_courses (extract_rows_pdfplumber envC2.pdfPages (3.2 : ℚ))
        (allowed_set ["math"]) = [] ∧
      extract_rows_ocr ocrRich (6 : ℚ) ≠ [] ∧
      extract_rows { envC2 with ocr := ocrRich } false =
        (extract_rows_pdfplumber envC2.pdfPages (3.2 : ℚ), false) := by
  refine ⟨?_, ?_, ?_, ?_⟩ <;> with_unfolding_all decide

/-- Claim C2 (amended): the OCR fallback path runs iff OCR is forced by the
flag or the environment override, or the primary extraction yields zero
rows; primary text length, course-match counts and name/university
extraction are never consulted.  Forward direction: whenever OCR is forced
or the primary row list is empty, the result follows `extract_rows_ocr`
(its rows with `ocr_used = true` when non-empty, else empty rows with
`ocr_used = false`).  Backward direction: whenever the primary row list is
non-empty and OCR is not forced, the result is the primary rows with
`ocr_used = false`, independent of the OCR environment. -/
theorem c2_amended_ocr_trigger (env : Env) (preferOcr : Bool) :
    (((preferOcr || env.forceFlagEnv) = true ∨
        extract_rows_pdfplumber env.pdfPages (3.2 : ℚ) = []) →
      extract_rows env preferOcr =
        (if extract_rows_ocr env.ocr (6 : ℚ) = [] then ([], false)
         else (extract_rows_ocr env.ocr (6 : ℚ), true))) ∧
    ((preferOcr || env.forceFlagEnv) = false ∧
        extract_rows_pdfplumber env.pdfPages (3.2 : ℚ) ≠ [] →
      ∀ ocr2 : OcrEnv,
        extract_rows { env with ocr := ocr2 } preferOcr =
          (extract_rows_pdfplumber env.pdfPages (3.2 : ℚ), false)) := by
  constructor
  · intro h
    unfold extract_rows
    by_cases hforce : (preferOcr || env.forceFlagEnv) = true
    · simp only [hforce]
      by_cases hocr : extract_rows_ocr env.ocr (6 : ℚ) = [] <;>
        simp [hocr]
    · rw [Bool.not_eq_true] at hforce
      have hempty : extract_rows_pdfplumber env.pdfPages (3.2 : ℚ) = [] := by
        rcases h with h | h
        · exact absurd h (by simp [hforce])
        · exact h
      simp only [hforce]
      by_cases hocr : extract_rows_ocr env.ocr (6 : ℚ) = [] <;>
        simp [hempty, hocr]
  · rintro ⟨hf, hp⟩ ocr2
    unfold extract_rows
    simp [hf, hp]

/-- Witness for the amended C2, exercising both directions at concrete
inputs: the non-forced environment with non-empty primary rows keeps the
primary result for any OCR stack, and the forced environment follows the
OCR extraction. -/
theorem c2_witness :
    (extract_rows { envC2 with ocr := ocrRich } false =
      (extract_rows_pdfplumber envC2.pdfPages (3.2 : ℚ), false)) ∧
    (extract_rows { envC2 with forceFlagEnv := true, ocr := ocrRich } false =
      (extract_rows_ocr ocrRich (6 : ℚ), true)) := by
  constructor
  · exact (c2_amended_ocr_trigger envC2 false).2
      ⟨by with_unfolding_all decide, by with_unfolding_all decide⟩ ocrRich
  · have h := (c2_amended_ocr_trigger
      { envC2 with forceFlagEnv := true, ocr := ocrRich } false).1
      (Or.inl (by with_unfolding_all decide))
    rw [h]
    with_unfolding_all decide

theorem dedupLoop_count (tr : String × String × String) :
    ∀ (ms seen : List (String × String × String)),
      (dedupLoop seen ms).count tr = (if tr ∈ ms ∧ tr ∉ seen then 1 else 0) := by
  intro ms
  induction ms with
  | nil => intro seen; simp [dedupLoop]
  | cons hd tl ih =>
    intro seen
    simp only [dedupLoop]
    by_cases hseen : hd ∈ seen
    · rw [if_pos (by rwa [List.elem_iff])]
      rw [ih seen]
      by_cases htr : tr = hd
      · subst htr
        simp [List.mem_cons, hseen]
      · simp [List.mem_cons, htr]
    · rw [if_neg (fun hc => hseen (List.elem_iff.mp hc))]
      rw [List.count_cons, ih (hd :: seen)]
      by_cases htr : tr = hd
      · subst htr
        simp [List.mem_cons, hseen]
      · have htr' : ¬hd = tr := fun h => htr (Eq.symm h)
        simp [List.mem_cons, htr, htr']

/-- Input of the C4 counterexample: the same `(code, grade)` pair with two
different titles, e.g. from two differently stitched continuation rows. -/
def msC4 : List (String × String × String) :=
  [("MATH 101", "Calc", "A"), ("MATH 101", "Calculus", "A")]

/-- Claim C4 counterexample: `main` deduplicates by the full
`(code, title, grade)` triple, so a `(code, grade)` pair occurring twice
with different titles yields two printed course entries, not one. -/
theorem c4_counterexample :
    (presentEntries msC4).countP
        (fun tr => tr.1 = "MATH 101" && tr.2.2 = "A") = 2 ∧
      (presentLines msC4).length = 2 := by
  decide

/-- Claim C4 (amended): the final printed output contains exactly one
course entry per distinct `(code, title, grade)` triple of the Course
Scanner's output: duplicates of the full triple are removed (each triple
fed at least once appears exactly once after deduplication), and the
presented entries are a permutation of the deduplicated triples, each
rendered as one line. -/
theorem c4_amended_dedup_by_triple (ms : List (String × String × String))
    (tr : String × String × String) :
    (dedupMatches ms).count tr = (if tr ∈ ms then 1 else 0) ∧
      List.Perm (presentEntries ms) (dedupMatches ms) ∧
      presentLines ms = (presentEntries ms).map formatLine := by
  refine ⟨?_, ?_, rfl⟩
  · rw [dedupMatches, dedupLoop_count]
    simp
  · exact pySort_perm _ _

theorem dropWhile_head_false (p : Char → Bool) :
    ∀ (l : List Char) c rest, l.dropWhile p = c :: rest → p c = false := by
  intro l
  induction l with
  | nil => intro c rest h; simp [List.dropWhile] at h
  | cons a as ih =>
    intro c rest h
    rw [List.dropWhile_cons] at h
    by_cases hp : p a = true
    · exact ih c rest (by simpa [hp] using h)
    · rw [if_neg hp] at h
      cases h
      simpa using hp

theorem stripWhile_not_all (p : Char → Bool) (s : String)
    (h : stripWhile p s ≠ "") : (stripWhile p s).data.all p = false := by
  unfold stripWhile at *
  rcases hdw : (s.data.dropWhile p).reverse.dropWhile p with _ | ⟨c, rest⟩
  · exfalso
    apply h
    show String.mk _ = String.mk []
    rw [hdw]
    rfl
  · have hc : p c = false := dropWhile_head_false p _ c rest hdw
    have hmem : c ∈ (c :: rest).reverse := by simp
    rcases hall : ((c :: rest).reverse.all p) with _ | _
    · rfl
    · exfalso
      rw [List.all_eq_true] at hall
      rw [hall c hmem] at hc
      exact absurd hc (by simp)

/-- Every token of a `debug_dump` row: text is stripped non-empty, hence
not empty-or-whitespace-only. -/
def dRowOk (r : DRow) : Prop :=
  ∀ tok ∈ r.toks, tok.text.data.all isPySpace = false

theorem mem_sortDToks {toks : List DTok} {t : DTok} :
    t ∈ sortDToksByX0 toks ↔ t ∈ toks :=
  mem_pySort _

theorem dGroupLoop_ok (yTol : ℚ) :
    ∀ (ws : List DWord) (cur : Option DRow),
      (∀ r, cur = some r → dRowOk r) →
      ∀ row ∈ dGroupLoop yTol cur ws, dRowOk row := by
  intro ws
  induction ws with
  | nil =>
    intro cur hcur row hrow
    cases cur with
    | none => simp [dGroupLoop] at hrow
    | some r =>
      simp only [dGroupLoop, List.mem_singleton] at hrow
      subst hrow
      intro tok htok
      exact hcur r rfl tok (mem_sortDToks.mp htok)
  | cons w ws ih =>
    intro cur hcur row hrow
    by_cases ht : to_str w.text = ""
    · rw [dGroupLoop, if_pos ht] at hrow
      exact ih cur hcur row hrow
    · have htok : (to_str w.text).data.all isPySpace = false :=
        stripWhile_not_all isPySpace _ ht
      cases cur with
      | none =>
        rw [dGroupLoop, if_neg ht] at hrow
        refine ih _ ?_ row hrow
        intro r hr tok htk
        injection hr with hr2
        subst hr2
        rcases List.mem_singleton.mp htk with rfl
        exact htok
      | some r =>
        simp only [dGroupLoop, ht, if_false, if_neg] at hrow
        split at hrow
        · rcases List.mem_cons.mp hrow with rfl | hrow'
          · intro tok htk
            exact hcur r rfl tok (mem_sortDToks.mp htk)
          · refine ih _ ?_ row hrow'
            intro r' hr' tok htk
            injection hr' with hr2
            subst hr2
            rcases List.mem_singleton.mp htk with rfl
            exact htok
        · refine ih _ ?_ row hrow
          intro r' hr' tok htk
          injection hr' with hr2
          subst hr2
          rcases List.mem_append.mp htk with hin | hin
          · exact hcur r rfl tok hin
          · rcases List.mem_singleton.mp hin with rfl
            exact htok

theorem dGroupLoop_sorted (yTol : ℚ) :
    ∀ (ws : List DWord) (cur : DRow),
      List.Pairwise (fun a b => to_float a.top 0 ≤ to_float b.top 0) ws →
      (∀ w ∈ ws, cur.y ≤ to_float w.top 0) →
      (∀ row ∈ dGroupLoop yTol (some cur) ws, cur.y ≤ row.y) ∧
        List.Pairwise (fun r1 r2 => r1.y ≤ r2.y) (dGroupLoop yTol (some cur) ws) := by
  intro ws
  induction ws with
  | nil =>
    intro cur _ _
    constructor
    · intro row hrow
      simp only [dGroupLoop, List.mem_singleton] at hrow
      subst hrow
      exact le_refl _
    · simp [dGroupLoop]
  | cons w ws ih =>
    intro cur hpair hge
    rw [List.pairwise_cons] at hpair
    by_cases ht : to_str w.text = ""
    · rw [dGroupLoop, if_pos ht]
      exact ih cur hpair.2 (fun w' hw' => hge w' (List.mem_cons_of_mem _ hw'))
    · have hcw : cur.y ≤ to_float w.top 0 := hge w (List.mem_cons_self _ _)
      by_cases hsplit : yTol < |to_float w.top 0 - cur.y|
      · have ihn := ih ⟨to_float w.top 0,
          [⟨to_str w.text, to_float w.x0 0, to_float w.x1 (to_float w.x0 0),
            to_float w.top 0, to_float w.bottom (to_float w.top 0 + 8)⟩]⟩
          hpair.2 hpair.1
        simp only [dGroupLoop, ht, if_false, if_neg, hsplit, if_pos, if_true]
        constructor
        · intro row hrow
          rcases List.mem_cons.mp hrow with rfl | hr
          · exact le_refl _
          · exact le_trans hcw (ihn.1 row hr)
        · rw [List.pairwise_cons]
          exact ⟨fun r2 hr2 => le_trans hcw (ihn.1 r2 hr2), ihn.2⟩
      · have ihn := ih ⟨cur.y, cur.toks ++
          [⟨to_str w.text, to_float w.x0 0, to_float w.x1 (to_float w.x0 0),
            to_float w.top 0, to_float w.bottom (to_float w.top 0 + 8)⟩]⟩
          hpair.2 (fun w' hw' => hge w' (List.mem_cons_of_mem _ hw'))
        simp only [dGroupLoop, ht, if_false, if_neg, hsplit, if_pos, if_true]
        exact ⟨ihn.1, ihn.2⟩

theorem sortDToks_sorted (toks : List DTok) :
    List.Pairwise (fun a b : DTok => a.x0 ≤ b.x0) (sortDToksByX0 toks) := by
  have h := pySort_sorted (fun a b : DTok => decide (a.x0 ≤ b.x0))
    (fun a b => by
      rcases le_total a.x0 b.x0 with h | h
      · left; simpa using h
      · right; simpa using h)
    (fun a b c hab hbc => by
      simp only [decide_eq_true_eq] at *
      exact le_trans hab hbc) toks
  exact h.imp (fun h => by simpa using h)

theorem dGroupLoop_toksSorted (yTol : ℚ) :
    ∀ (ws : List DWord) (cur : Option DRow),
      ∀ row ∈ dGroupLoop yTol cur ws,
        List.Pairwise (fun a b : DTok => a.x0 ≤ b.x0) row.toks := by
  intro ws
  induction ws with
  | nil =>
    intro cur row hrow
    cases cur with
    | none => simp [dGroupLoop] at hrow
    | some r =>
      simp only [dGroupLoop, List.mem_singleton] at hrow
      subst hrow
      exact sortDToks_sorted r.toks
  | cons w ws ih =>
    intro cur row hrow
    by_cases ht : to_str w.text = ""
    · rw [dGroupLoop, if_pos ht] at hrow
      exact ih cur row hrow
    · cases cur with
      | none =>
        rw [dGroupLoop, if_neg ht] at hrow
        exact ih _ row hrow
      | some r =>
        simp only [dGroupLoop, ht, if_false, if_neg] at hrow
        split at hrow
        · rcases List.mem_cons.mp hrow with rfl | hrow'
          · exact sortDToks_sorted r.toks
          · exact ih _ row hrow'
        · exact ih _ row hrow

theorem sortToks_sorted (toks : List Tok) :
    List.Pairwise (fun a b : Tok => a.x0 ≤ b.x0) (sortToksByX0 toks) := by
  have h := pySort_sorted (fun a b : Tok => decide (a.x0 ≤ b.x0))
    (fun a b => by
      rcases le_total a.x0 b.x0 with h | h
      · left; simpa using h
      · right; simpa using h)
    (fun a b c hab hbc => by
      simp only [decide_eq_true_eq] at *
      exact le_trans hab hbc) toks
  exact h.imp (fun h => by simpa using h)

theorem pdfGroupLoop_toksSorted (yTol : ℚ) (pidx : Nat) :
    ∀ (ws : List PWord) (cur : Option Row),
      ∀ row ∈ pdfGroupLoop yTol pidx cur ws,
        List.Pairwise (fun a b : Tok => a.x0 ≤ b.x0) row.toks := by
  intro ws
  induction ws with
  | nil =>
    intro cur row hrow
    cases cur with
    | none => simp [pdfGroupLoop] at hrow
    | some r =>
      simp only [pdfGroupLoop, List.mem_singleton] at hrow
      subst hrow
      exact sortToks_sorted r.toks
  | cons w ws ih =>
    intro cur row hrow
    by_cases ht : normalize_text (w.text.getD "") = ""
    · rw [pdfGroupLoop, if_pos ht] at hrow
      exact ih cur row hrow
    · cases cur with
      | none =>
        rw [pdfGroupLoop, if_neg ht] at hrow
        exact ih _ row hrow
      | some r =>
        simp only [pdfGroupLoop, ht, if_false, if_neg] at hrow
        split at hrow
        · rcases List.mem_cons.mp hrow with rfl | hrow'
          · exact sortToks_sorted r.toks
          · exact ih _ row hrow'
        · exact ih _ row hrow

theorem pdfGroupLoop_textNE (yTol : ℚ) (pidx : Nat) :
    ∀ (ws : List PWord) (cur : Option Row),
      (∀ r, cur = some r → ∀ tok ∈ r.toks, tok.text ≠ "") →
      ∀ row ∈ pdfGroupLoop yTol pidx cur ws, ∀ tok ∈ row.toks, tok.text ≠ "" := by
  intro ws
  induction ws with
  | nil =>
    intro cur hcur row hrow
    cases cur with
    | none => simp [pdfGroupLoop] at hrow
    | some r =>
      simp only [pdfGroupLoop, List.mem_singleton] at hrow
      subst hrow
      intro tok htok
      exact hcur r rfl tok ((mem_pySort _).mp htok)
  | cons w ws ih =>
    intro cur hcur row hrow
    by_cases ht : normalize_text (w.text.getD "") = ""
    · rw [pdfGroupLoop, if_pos ht] at hrow
      exact ih cur hcur row hrow
    · cases cur with
      | none =>
        rw [pdfGroupLoop, if_neg ht] at hrow
        refine ih _ ?_ row hrow
        intro r hr tok htk
        injection hr with hr2
        subst hr2
        rcases List.mem_singleton.mp htk with rfl
        exact ht
      | some r =>
        simp only [pdfGroupLoop, ht, if_false, if_neg] at hrow
        split at hrow
        · rcases List.mem_cons.mp hrow with rfl | hrow'
          · intro tok htk
            exact hcur r rfl tok ((mem_pySort _).mp htk)
          · refine ih _ ?_ row hrow'
            intro r' hr' tok htk
            injection hr' with hr2
            subst hr2
            rcases List.mem_singleton.mp htk with rfl
            exact ht
        · refine ih _ ?_ row hrow
          intro r' hr' tok htk
          injection hr' with hr2
          subst hr2
          rcases List.mem_append.mp htk with hin | hin
          · exact hcur r rfl tok hin
          · rcases List.mem_singleton.mp hin with rfl
            exact ht

theorem mem_extract_rows_pdfplumber {pages : Option (List (List PWord))}
    {yTol : ℚ} {row : Row} (h : row ∈ extract_rows_pdfplumber pages yTol) :
    ∃ pidx ws, row ∈ pdfGroupLoop yTol pidx none (sortWordsByTopX0 ws) := by
  cases pages with
  | none => simp [extract_rows_pdfplumber] at h
  | some ps =>
    unfold extract_rows_pdfplumber sortRowsByPageY at h
    rw [mem_pySort] at h
    rw [List.mem_flatten] at h
    obtain ⟨l, hl, hrl⟩ := h
    rw [List.mem_map] at hl
    obtain ⟨pw, _, rfl⟩ := hl
    exact ⟨pw.1 + 1, pw.2, hrl⟩

theorem extract_rows_pdfplumber_rowSorted (pages : Option (List (List PWord)))
    (yTol : ℚ) :
    List.Pairwise
      (fun r1 r2 : Row => r1.page < r2.page ∨ (r1.page = r2.page ∧ r1.y ≤ r2.y))
      (extract_rows_pdfplumber pages yTol) := by
  cases pages with
  | none => simp [extract_rows_pdfplumber]
  | some ps =>
    unfold extract_rows_pdfplumber sortRowsByPageY
    have h := pySort_sorted
      (fun a b : Row =>
        decide (a.page < b.page) || (a.page = b.page && decide (a.y ≤ b.y)))
      (fun a b => by
        rcases Nat.lt_trichotomy a.page b.page with h | h | h
        · left; simp [h]
        · rcases le_total a.y b.y with hy | hy
          · left; simp [h, hy]
          · right; simp [h.symm, hy]
        · right; simp [h])
      (fun a b c hab hbc => by
        simp only [Bool.or_eq_true, Bool.and_eq_true, decide_eq_true_eq] at *
        rcases hab with h1 | ⟨h1, h1'⟩ <;> rcases hbc with h2 | ⟨h2, h2'⟩
        · exact Or.inl (lt_trans h1 h2)
        · exact Or.inl (h2 ▸ h1)
        · exact Or.inl (h1 ▸ h2)
        · exact Or.inr ⟨h1.trans h2, le_trans h1' h2'⟩)
      ((ps.enum.map (fun pw =>
        pdfGroupLoop yTol (pw.1 + 1) none (sortWordsByTopX0 pw.2))).flatten)
    exact h.imp (fun hx => by
      simp only [Bool.or_eq_true, Bool.and_eq_true, decide_eq_true_eq] at hx
      exact hx)

theorem dGroupLoop_sorted_none (yTol : ℚ) :
    ∀ (ws : List DWord),
      List.Pairwise (fun a b => to_float a.top 0 ≤ to_float b.top 0) ws →
      List.Pairwise (fun r1 r2 : DRow => r1.y ≤ r2.y) (dGroupLoop yTol none ws) := by
  intro ws
  induction ws with
  | nil => simp [dGroupLoop]
  | cons w ws ih =>
    intro hpair
    rw [List.pairwise_cons] at hpair
    by_cases ht : to_str w.text = ""
    · rw [dGroupLoop, if_pos ht]
      exact ih hpair.2
    · rw [dGroupLoop, if_neg ht]
      exact (dGroupLoop_sorted yTol ws ⟨to_float w.top 0,
        [⟨to_str w.text, to_float w.x0 0, to_float w.x1 (to_float w.x0 0),
          to_float w.top 0, to_float w.bottom (to_float w.top 0 + 8)⟩]⟩
        hpair.2 hpair.1).2

/-- Claim C6: for every word list already sorted by (top, x0), the Row
Grouper produces rows whose internal word order is non-decreasing in x0 and
whose row order is non-decreasing in y (`group_words_into_rows`, whose rows
carry no page field), and the pdfplumber extractor produces rows whose
token order is non-decreasing in x0 and whose row order is non-decreasing
in (page, y). -/
theorem c6_row_grouper_sorted (ws : List DWord) (yTol : ℚ)
    (pages : Option (List (List PWord))) (yTol2 : ℚ)
    (hsorted : List.Pairwise
      (fun a b => to_float a.top 0 < to_float b.top 0 ∨
        (to_float a.top 0 = to_float b.top 0 ∧ to_float a.x0 0 ≤ to_float b.x0 0)) ws) :
    (∀ row ∈ group_words_into_rows ws yTol,
        List.Pairwise (fun a b : DTok => a.x0 ≤ b.x0) row.toks) ∧
      List.Pairwise (fun r1 r2 : DRow => r1.y ≤ r2.y) (group_words_into_rows ws yTol) ∧
      (∀ row ∈ extract_rows_pdfplumber pages yTol2,
        List.Pairwise (fun a b : Tok => a.x0 ≤ b.x0) row.toks) ∧
      List.Pairwise
        (fun r1 r2 : Row => r1.page < r2.page ∨ (r1.page = r2.page ∧ r1.y ≤ r2.y))
        (extract_rows_pdfplumber pages yTol2) := by
  refine ⟨?_, ?_, ?_, extract_rows_pdfplumber_rowSorted pages yTol2⟩
  · intro row hrow
    exact dGroupLoop_toksSorted yTol ws none row hrow
  · exact dGroupLoop_sorted_none yTol ws
      (hsorted.imp (fun h => h.elim le_of_lt (fun he => le_of_eq he.1)))
  · intro row hrow
    obtain ⟨pidx, ws', hmem⟩ := mem_extract_rows_pdfplumber hrow
    exact pdfGroupLoop_toksSorted yTol2 pidx _ none row hmem

/-- Witness for C6 at a concrete sorted word list. -/
theorem c6_witness :
    List.Pairwise (fun r1 r2 : DRow => r1.y ≤ r2.y)
      (group_words_into_rows [⟨some "a", some 1, some 2, some 0, some 8⟩,
        ⟨some "b", some 1, some 2, some 10, some 18⟩] 3) :=
  (c6_row_grouper_sorted [⟨some "a", some 1, some 2, some 0, some 8⟩,
      ⟨some "b", some 1, some 2, some 10, some 18⟩] 3 none (3.2 : ℚ)
    (by with_unfolding_all decide)).2.1

/-- Input of the C7 counterexample: one pdfplumber word whose text is a
single space. -/
def pagesC7 : Option (List (List PWord)) :=
  some [[⟨some " ", some 1, some 2, some 0, some 8⟩]]

/-- Claim C7 counterexample: the pdfplumber Row Grouper keeps a word whose
text is whitespace only — `_extract_rows_pdfplumber` drops only empty
normalised text (`if not t`), it never strips, so the produced row contains
a token whose text consists only of whitespace. -/
theorem c7_counterexample :
    extract_rows_pdfplumber pagesC7 (3.2 : ℚ) =
      [⟨1, 0, [⟨" ", 1, 2, 0, 8, 1⟩]⟩] ∧
      (" " : String).data.all isPySpace = true := by
  constructor
  · with_unfolding_all decide
  · decide

/-- Claim C7 (amended): the `debug_dump` Row Grouper discards empty or
whitespace-only word text before grouping (its tokens are stripped and
non-empty, hence never whitespace-only), while the pdfplumber extractor
discards only words whose normalised text is empty: its tokens are never
empty but may be whitespace-only. -/
theorem c7_amended_word_text_filter (ws : List DWord) (yTol : ℚ)
    (pages : Option (List (List PWord))) (yTol2 : ℚ) :
    (∀ row ∈ group_words_into_rows ws yTol, ∀ tok ∈ row.toks,
        tok.text.data.all isPySpace = false) ∧
      (∀ row ∈ extract_rows_pdfplumber pages yTol2, ∀ tok ∈ row.toks,
        tok.text ≠ "") := by
  constructor
  · intro row hrow
    refine dGroupLoop_ok yTol ws none ?_ row hrow
    intro r h
    cases h
  · intro row hrow
    obtain ⟨pidx, ws', hmem⟩ := mem_extract_rows_pdfplumber hrow
    refine pdfGroupLoop_textNE yTol2 pidx _ none ?_ row hmem
    intro r h
    cases h

/-- Witness for the amended C7 at a concrete word list. -/
theorem c7_witness :
    (("a" : String).data.all isPySpace = false) :=
  (c7_amended_word_text_filter [⟨some "a", some 1, some 2, some 0, some 8⟩] 3
      none (3.2 : ℚ)).1
    ⟨0, [⟨"a", 1, 2, 0, 8⟩]⟩ (by with_unfolding_all decide)
    ⟨"a", 1, 2, 0, 8⟩ (by decide)

theorem isUpper_toUpper_of_isAlpha {c : Char} (h : c.isAlpha = true) :
    (Char.toUpper c).isUpper = true := by
  rw [Char.isAlpha, Bool.or_eq_true] at h
  have hval : c.toNat = c.val.toNat := rfl
  rcases h with h | h
  · rw [Char.isUpper, Bool.and_eq_true, decide_eq_true_eq, decide_eq_true_eq] at h
    have h1 : 65 ≤ c.toNat := by
      rw [hval]
      have := h.1
      rw [ge_iff_le, UInt32.le_def, BitVec.le_def] at this
      simpa using this
    have h2 : c.toNat ≤ 90 := by
      rw [hval]
      have := h.2
      rw [UInt32.le_def, BitVec.le_def] at this
      simpa using this
    rw [Char.toUpper]
    have hcond : ¬(c.toNat ≥ 97 ∧ c.toNat ≤ 122) := by omega
    rw [if_neg hcond]
    rw [Char.isUpper, Bool.and_eq_true, decide_eq_true_eq, decide_eq_true_eq]
    exact ⟨h.1, h.2⟩
  · rw [Char.isLower, Bool.and_eq_true, decide_eq_true_eq, decide_eq_true_eq] at h
    have h1 : 97 ≤ c.toNat := by
      rw [hval]
      have := h.1
      rw [ge_iff_le, UInt32.le_def, BitVec.le_def] at this
      simpa using this
    have h2 : c.toNat ≤ 122 := by
      rw [hval]
      have := h.2
      rw [UInt32.le_def, BitVec.le_def] at this
      simpa using this
    rw [Char.toUpper]
    rw [if_pos ⟨h1, h2⟩]
    interval_cases hn : c.toNat <;> decide

theorem toUpper_of_isDigit {c : Char} (h : c.isDigit = true) :
    Char.toUpper c = c := by
  rw [Char.isDigit, Bool.and_eq_true, decide_eq_true_eq, decide_eq_true_eq] at h
  have h2 : c.toNat ≤ 57 := by
    have := h.2
    rw [UInt32.le_def, BitVec.le_def] at this
    simpa using this
  rw [Char.toUpper]
  exact if_neg (by omega)

theorem isDigit_toUpper {c : Char} (h : c.isDigit = true) :
    (Char.toUpper c).isDigit = true := by
  rw [toUpper_of_isDigit h]
  exact h

theorem not_isDigit_of_isUpper {c : Char} (h : c.isUpper = true) :
    c.isDigit = false := by
  rw [Char.isUpper, Bool.and_eq_true, decide_eq_true_eq, decide_eq_true_eq] at h
  have h1 : 65 ≤ c.val.toNat := by
    have := h.1
    rw [ge_iff_le, UInt32.le_def, BitVec.le_def] at this
    simpa using this
  rw [Char.isDigit]
  rcases hd : (decide (c.val ≥ 48) && decide (c.val ≤ 57)) with _ | _
  · rfl
  · exfalso
    rw [Bool.and_eq_true, decide_eq_true_eq, decide_eq_true_eq] at hd
    have h2 : c.val.toNat ≤ 57 := by
      have := hd.2
      rw [UInt32.le_def, BitVec.le_def] at this
      simpa using this
    omega

theorem mem_takeWhile_pred {p : α → Bool} :
    ∀ {l : List α} {x : α}, x ∈ l.takeWhile p → p x = true := by
  intro l
  induction l with
  | nil => intro x h; simp [List.takeWhile] at h
  | cons a as ih =>
    intro x h
    rw [List.takeWhile_cons] at h
    by_cases ha : p a = true
    · rw [if_pos ha] at h
      rcases List.mem_cons.mp h with rfl | h2
      · exact ha
      · exact ih h2
    · rw [if_neg ha] at h
      simp at h

theorem takeWhile_append_of_all {p : α → Bool} :
    ∀ (l1 l2 : List α), (∀ x ∈ l1, p x = true) →
      (l1 ++ l2).takeWhile p = l1 ++ l2.takeWhile p := by
  intro l1
  induction l1 with
  | nil => intro l2 _; simp
  | cons a as ih =>
    intro l2 hall
    rw [List.cons_append, List.takeWhile_cons, if_pos (hall a (List.mem_cons_self _ _)),
      List.cons_append, ih l2 (fun x hx => hall x (List.mem_cons_of_mem _ hx))]

/-- The shape claimed for the prefix part of a course code: at least two
characters, all upper-case letters. -/
def upperAlpha2B (s : String) : Bool :=
  decide (2 ≤ s.data.length) && s.data.all (fun c => c.isUpper)

/-- The shape claimed for the number part of a course code: three or four
digits followed by an optional upper-case letter. -/
def upperNumTokB (s : String) : Bool :=
  let ds := s.data.takeWhile Char.isDigit
  let rest := s.data.drop ds.length
  (ds.length = 3 || ds.length = 4) &&
    (match rest with
     | [] => true
     | [c] => c.isUpper
     | _ => false)

theorem upperAlpha2B_pyUpper {s : String} (h : alpha2B s = true) :
    upperAlpha2B (pyUpper s) = true := by
  rw [alpha2B, Bool.and_eq_true, decide_eq_true_eq, List.all_eq_true] at h
  rw [upperAlpha2B, Bool.and_eq_true, decide_eq_true_eq, List.all_eq_true]
  constructor
  · show 2 ≤ (s.data.map Char.toUpper).length
    rw [List.length_map]
    exact h.1
  · intro c hc
    show c.isUpper = true
    have hc' : c ∈ s.data.map Char.toUpper := hc
    rw [List.mem_map] at hc'
    obtain ⟨c0, hc0, rfl⟩ := hc'
    exact isUpper_toUpper_of_isAlpha (h.2 c0 hc0)

theorem takeWhile_append_drop (p : α → Bool) :
    ∀ l : List α, l.takeWhile p ++ l.drop (l.takeWhile p).length = l := by
  intro l
  induction l with
  | nil => rfl
  | cons a as ih =>
    rw [List.takeWhile_cons]
    by_cases h : p a = true
    · rw [if_pos h]
      simpa using ih
    · rw [if_neg h]
      rfl

theorem upperNumTokB_pyUpper {s : String} (h : numTokB s = true) :
    upperNumTokB (pyUpper s) = true := by
  rw [numTokB, Bool.and_eq_true] at h
  obtain ⟨hlen, hrest⟩ := h
  have hsplit := takeWhile_append_drop Char.isDigit s.data
  have hdsdig : ∀ c ∈ s.data.takeWhile Char.isDigit, c.isDigit = true :=
    fun c hc => mem_takeWhile_pred hc
  have hmapds : (s.data.takeWhile Char.isDigit).map Char.toUpper =
      s.data.takeWhile Char.isDigit := by
    rw [List.map_congr_left
      (fun c hc => (toUpper_of_isDigit (hdsdig c hc) : Char.toUpper c = id c))]
    exact List.map_id _
  have hdata : (pyUpper s).data =
      s.data.takeWhile Char.isDigit ++
        (s.data.drop (s.data.takeWhile Char.isDigit).length).map Char.toUpper := by
    show s.data.map Char.toUpper = _
    conv_lhs => rw [← hsplit]
    rw [List.map_append, hmapds]
  have htw : (pyUpper s).data.takeWhile Char.isDigit =
      s.data.takeWhile Char.isDigit ++
        ((s.data.drop (s.data.takeWhile Char.isDigit).length).map
          Char.toUpper).takeWhile Char.isDigit := by
    rw [hdata]
    exact takeWhile_append_of_all _ _ hdsdig
  have hid : (s.data.takeWhile Char.isDigit).takeWhile Char.isDigit =
      s.data.takeWhile Char.isDigit := by
    have h2 := takeWhile_append_of_all (s.data.takeWhile Char.isDigit) [] hdsdig
    simpa using h2
  rcases hr : s.data.drop (s.data.takeWhile Char.isDigit).length with _ | ⟨c, rest2⟩
  · rw [hr] at htw hdata
    simp only [List.map_nil, List.takeWhile_nil, List.append_nil] at htw hdata
    rw [upperNumTokB, Bool.and_eq_true]
    rw [htw]
    refine ⟨hlen, ?_⟩
    rw [hdata, List.drop_length]
  · rcases rest2 with _ | ⟨d, rest3⟩
    · rw [hr] at hrest
      have hcu : (Char.toUpper c).isUpper = true := isUpper_toUpper_of_isAlpha hrest
      have hcd : (Char.toUpper c).isDigit = false := not_isDigit_of_isUpper hcu
      rw [hr] at htw hdata
      simp only [List.map_cons, List.map_nil] at htw hdata
      rw [List.takeWhile_cons, if_neg (by simp [hcd]), List.append_nil] at htw
      rw [upperNumTokB, Bool.and_eq_true]
      rw [htw]
      refine ⟨hlen, ?_⟩
      rw [hdata, List.drop_left]
      exact hcu
    · rw [hr] at hrest
      simp at hrest

theorem iterPairsAux_shape : ∀ (l : List (Nat × Tok)), ∀ pr ∈ iterPairsAux l,
    alpha2B pr.1.2.text = true ∧ numTokB pr.2.2.text = true
  | [] => by
    intro pr h
    simp [iterPairsAux] at h
  | [_] => by
    intro pr h
    simp [iterPairsAux] at h
  | [a, b] => by
    intro pr h
    rw [iterPairsAux] at h
    by_cases h1 : pairCond1 a b = true
    · rw [if_pos h1] at h
      rcases List.mem_singleton.mp h with rfl
      rw [pairCond1, Bool.and_eq_true] at h1
      exact h1
    · rw [if_neg h1] at h
      simp at h
  | a :: b :: c :: rest2 => by
    intro pr h
    rw [iterPairsAux] at h
    by_cases h1 : pairCond1 a b = true
    · rw [if_pos h1] at h
      rcases List.mem_cons.mp h with rfl | h2
      · rw [pairCond1, Bool.and_eq_true] at h1
        exact h1
      · exact iterPairsAux_shape (c :: rest2) pr h2
    · by_cases h2 : pairCond2 a b c = true
      · rw [if_neg h1, if_pos h2] at h
        rcases List.mem_cons.mp h with rfl | h3
        · rw [pairCond2, Bool.and_eq_true, Bool.and_eq_true] at h2
          exact ⟨h2.1.1, h2.2⟩
        · exact iterPairsAux_shape rest2 pr h3
      · rw [if_neg h1, if_neg h2] at h
        exact iterPairsAux_shape (b :: c :: rest2) pr h

theorem iter_code_pairs_shape {toks : List Tok} {pr : CodePair}
    (h : pr ∈ iter_code_pairs toks) :
    alpha2B pr.1.2.text = true ∧ numTokB pr.2.2.text = true :=
  iterPairsAux_shape toks.enum pr h

/-- All grade strings the scanner can produce: strict letter grades with an
optional sign, loose status grades, the in-progress phrase and the `none`
sentinel. -/
def gradeSet : List String :=
  ["A", "A+", "A-", "B", "B+", "B-", "C", "C+", "C-", "D", "D+", "D-",
   "F", "F+", "F-", "P", "S", "U", "I", "T", "IN PROGRESS", "none"]

theorem strictLetter_cases {c : Char} (h : strictLetter c = true) :
    c.toUpper = 'A' ∨ c.toUpper = 'B' ∨ c.toUpper = 'C' ∨ c.toUpper = 'D' ∨
      c.toUpper = 'F' := by
  rw [strictLetter] at h
  have h2 := List.elem_iff.mp h
  simpa using h2

theorem signChar_cases {d : Char} (h : signChar d = true) :
    d = '+' ∨ d = '-' ∨ d = '−' := by
  rw [signChar] at h
  have h2 := h
  simp only [Bool.or_eq_true, decide_eq_true_eq] at h2
  tauto

theorem replaceMinus_pyUpper_strict_mem {s : String} (h : gradeStrictB s = true) :
    replaceMinus (pyUpper s) ∈ gradeSet := by
  rw [gradeStrictB] at h
  have hrm : replaceMinus (pyUpper s) =
      ⟨(s.data.map Char.toUpper).map (fun c => if c = '−' then '-' else c)⟩ := rfl
  rcases hd : s.data with _ | ⟨c, _ | ⟨d, rest⟩⟩
  · rw [hd] at h
    simp at h
  · rw [hd] at h
    rw [hrm, hd]
    rcases strictLetter_cases h with hc | hc | hc | hc | hc <;>
      simp only [List.map_cons, List.map_nil, hc] <;> decide
  · rw [hd] at h
    rcases rest with _ | ⟨e, rest2⟩
    · change (strictLetter c && signChar d) = true at h
      rw [Bool.and_eq_true] at h
      rw [hrm, hd]
      rcases strictLetter_cases h.1 with hc | hc | hc | hc | hc <;>
        rcases signChar_cases h.2 with hs | hs | hs <;>
        subst hs <;>
        simp only [List.map_cons, List.map_nil, hc] <;> decide
    · simp at h

theorem extractGrade_mem {c : Char}
    (hc : c = 'A' ∨ c = 'B' ∨ c = 'C' ∨ c = 'D' ∨ c = 'F')
    (rest : List Char) :
    extractGrade c rest ∈ gradeSet ∧ pyUpper (extractGrade c rest) ∈ gradeSet := by
  rcases hdw : rest.dropWhile isPySpace with _ | ⟨s, r2⟩
  · simp only [extractGrade, hdw]
    rcases hc with rfl | rfl | rfl | rfl | rfl <;> exact ⟨by decide, by decide⟩
  · simp only [extractGrade, hdw]
    clear hdw
    by_cases hs : ((s = '+' || s = '-') &&
        !(match r2 with | d :: _ => isWordChar d | [] => false)) = true
    · rw [if_pos hs]
      rw [Bool.and_eq_true, Bool.or_eq_true, decide_eq_true_eq, decide_eq_true_eq] at hs
      rcases hc with rfl | rfl | rfl | rfl | rfl <;>
        rcases hs.1 with rfl | rfl <;> exact ⟨by decide, by decide⟩
    · rw [if_neg hs]
      rcases hc with rfl | rfl | rfl | rfl | rfl <;> exact ⟨by decide, by decide⟩

theorem searchLetterAux_mem :
    ∀ (l : List Char) (prev : Option Char) (g : String),
      searchLetterAux prev l = some g → g ∈ gradeSet ∧ pyUpper g ∈ gradeSet := by
  intro l
  induction l with
  | nil =>
    intro prev g h
    simp [searchLetterAux] at h
  | cons c rest ih =>
    intro prev g h
    rw [searchLetterAux.eq_def] at h
    split at h
    next heq => exact absurd heq (by simp)
    next c2 rest2 heq =>
      injection heq with heq1 heq2
      subst heq1
      subst heq2
      split at h
      next hcond =>
        injection h with h
        subst h
        have hc : c = 'A' ∨ c = 'B' ∨ c = 'C' ∨ c = 'D' ∨ c = 'F' := by
          rw [Bool.and_eq_true, Bool.and_eq_true] at hcond
          have h2 := List.elem_iff.mp hcond.1.1
          simpa using h2
        exact extractGrade_mem hc rest
      next hcond => exact ih (some c) g h

theorem gradeLoose_pyUpper_mem {s : String} (h : gradeLooseB s = true) :
    pyUpper s ∈ gradeSet := by
  rw [gradeLooseB] at h
  rcases hd : s.data with _ | ⟨c, _ | ⟨d, rest⟩⟩
  · rw [hd] at h
    simp at h
  · rw [hd] at h
    have hc : c.toUpper = 'P' ∨ c.toUpper = 'S' ∨ c.toUpper = 'U' ∨
        c.toUpper = 'I' ∨ c.toUpper = 'T' := by
      have h2 := List.elem_iff.mp h
      simpa using h2
    have hu : pyUpper s = ⟨s.data.map Char.toUpper⟩ := rfl
    rw [hu, hd]
    rcases hc with hc | hc | hc | hc | hc <;>
      simp only [List.map_cons, List.map_nil, hc] <;> decide
  · rw [hd] at h
    simp at h

theorem strict_grade_right_mem {cx : Option ℚ} {row : Row} {g : String}
    (h : strict_grade_right_of_credits cx row = some g) : g ∈ gradeSet := by
  rw [strict_grade_right_of_credits.eq_def] at h
  split at h
  · exact absurd h (by simp)
  next cxv =>
    split at h
    next t hfind =>
      injection h with h
      subst h
      exact replaceMinus_pyUpper_strict_mem (by simpa using List.find?_some hfind)
    next hfind =>
      split at h
      · injection h with h
        subst h
        decide
      · split at h
        next g2 hsearch =>
          injection h with h
          subst h
          exact (searchLetterAux_mem _ none g2 hsearch).2
        next hsearch =>
          split at h
          next t hloose =>
            injection h with h
            subst h
            exact gradeLoose_pyUpper_mem (by simpa using List.find?_some hloose)
          next => exact absurd h (by simp)

theorem grade_left_mem {codeX0 : ℚ} {row : Row} {g : String}
    (h : grade_left_of_code codeX0 row = some g) : g ∈ gradeSet := by
  rw [grade_left_of_code.eq_def] at h
  split at h
  next t hfind =>
    injection h with h
    subst h
    have hp := List.find?_some hfind
    rw [Bool.and_eq_true] at hp
    exact replaceMinus_pyUpper_strict_mem hp.2
  next hfind =>
    split at h
    · injection h with h
      subst h
      decide
    · split at h
      next g2 hsearch =>
        injection h with h
        subst h
        exact (searchLetterAux_mem _ none g2 hsearch).2
      next hsearch =>
        split at h
        next t hloose =>
          injection h with h
          subst h
          exact gradeLoose_pyUpper_mem (by simpa using List.find?_some hloose)
        next => exact absurd h (by simp)

theorem windowGrade_mem (row : Row) (rest : List Row) :
    windowGrade row rest ∈ gradeSet := by
  rw [windowGrade.eq_def]
  split
  · decide
  · split
    next g2 hsearch => exact (searchLetterAux_mem _ none g2 hsearch).2
    next => decide

theorem crossGrade_mem (cx : Option ℚ) (ntoks : List Tok) :
    crossGrade cx ntoks ∈ gradeSet := by
  rw [crossGrade.eq_def]
  split
  · decide
  next cxv =>
    split
    next t hfind =>
      exact replaceMinus_pyUpper_strict_mem (by simpa using List.find?_some hfind)
    next hfind =>
      split
      · decide
      · decide

theorem pairRecord_grade_mem (titleMinX : Option ℚ) (row : Row) (rest : List Row)
    (toks : List Tok) (pairs : List CodePair) (pr : CodePair) :
    (pairRecord titleMinX row rest toks pairs pr).2.2 ∈ gradeSet := by
  show (match strict_grade_right_of_credits _ row with
    | some g => g
    | none =>
      match grade_left_of_code _ row with
      | some g => g
      | none => windowGrade row rest) ∈ gradeSet
  split
  next g hg => exact strict_grade_right_mem hg
  next hg =>
    split
    next g hg2 => exact grade_left_mem hg2
    next hg2 => exact windowGrade_mem row rest

theorem pairRecord_code (titleMinX : Option ℚ) (row : Row) (rest : List Row)
    (toks : List Tok) (pairs : List CodePair) (pr : CodePair) :
    (pairRecord titleMinX row rest toks pairs pr).1 =
      pyUpper pr.1.2.text ++ " " ++ pyUpper pr.2.2.text := rfl

theorem gradeSet_ne_empty {g : String} (h : g ∈ gradeSet) : g ≠ "" := by
  fin_cases h <;> decide

theorem crossRowRecs_inv {allowed : List String} {tx : Nat → Option ℚ}
    {toks : List Tok} {rest : List Row} {tr : String × String × String}
    (h : tr ∈ crossRowRecs allowed tx toks rest) :
    ∃ pfx num, tr.1 = pfx ++ " " ++ num ∧ allowed.contains pfx = true ∧
      upperAlpha2B pfx = true ∧ upperNumTokB num = true ∧ tr.2.2 ∈ gradeSet := by
  rw [crossRowRecs.eq_def] at h
  split at h
  · simp at h
  next nextRow rest2 =>
    split at h
    · simp at h
    · split at h
      · simp at h
      next last hlast =>
        split at h
        next halpha =>
          split at h
          · simp at h
          next nt0 ntRest heq =>
            split at h
            next hnum =>
              split at h
              next hcont =>
                rcases List.mem_singleton.mp h with rfl
                refine ⟨pyUpper last.text, pyUpper nt0.text, rfl, hcont, ?_, ?_, ?_⟩
                · exact upperAlpha2B_pyUpper halpha
                · exact upperNumTokB_pyUpper hnum
                · exact crossGrade_mem _ _
              next => simp at h
            next => simp at h
        next => simp at h

theorem processRow_inv {allowed : List String} {tx : Nat → Option ℚ} {row : Row}
    {rest : List Row} {tr : String × String × String}
    (h : tr ∈ processRow allowed tx row rest) :
    ∃ pfx num, tr.1 = pfx ++ " " ++ num ∧ allowed.contains pfx = true ∧
      upperAlpha2B pfx = true ∧ upperNumTokB num = true ∧ tr.2.2 ∈ gradeSet := by
  simp only [processRow] at h
  split at h
  · simp at h
  · split at h
    · simp at h
    · split at h
      · exact crossRowRecs_inv h
      · rw [List.mem_map] at h
        obtain ⟨pr, hpr, rfl⟩ := h
        rw [List.mem_filter] at hpr
        obtain ⟨hpairs, hcont⟩ := hpr
        have hshape := iter_code_pairs_shape hpairs
        refine ⟨pyUpper pr.1.2.text, pyUpper pr.2.2.text, pairRecord_code _ _ _ _ _ _,
          hcont, upperAlpha2B_pyUpper hshape.1, upperNumTokB_pyUpper hshape.2,
          pairRecord_grade_mem _ _ _ _ _ _⟩

theorem scanLoop_inv {allowed : List String} {tx : Nat → Option ℚ} :
    ∀ (rows : List Row) (tr : String × String × String),
      tr ∈ scanLoop allowed tx rows →
      ∃ row rest, tr ∈ processRow allowed tx row rest := by
  intro rows
  induction rows with
  | nil =>
    intro tr h
    simp [scanLoop] at h
  | cons r rest ih =>
    intro tr h
    rw [scanLoop] at h
    rcases List.mem_append.mp h with h1 | h2
    · exact ⟨r, rest, h1⟩
    · exact ih tr h2

theorem scan_rows_inv {rows : List Row} {allowed : List String}
    {tr : String × String × String} (h : tr ∈ scan_rows_for_courses rows allowed) :
    (∃ pfx num, tr.1 = pfx ++ " " ++ num ∧ allowed.contains pfx = true ∧
      upperAlpha2B pfx = true ∧ upperNumTokB num = true) ∧
    tr.2.2 ∈ gradeSet ∧ (inprogAnywhere rows = true → tr.2.2 ≠ "none") := by
  simp only [scan_rows_for_courses] at h
  split at h
  next hprog =>
    rw [List.mem_map] at h
    obtain ⟨tr0, htr0, rfl⟩ := h
    obtain ⟨row, rest, hmem⟩ := scanLoop_inv _ tr0 htr0
    obtain ⟨pfx, num, hcode, hcont, ha, hn, hg⟩ := processRow_inv hmem
    refine ⟨⟨pfx, num, hcode, hcont, ha, hn⟩, ?_, ?_⟩
    · show (if tr0.2.2 = "none" then "IN PROGRESS" else tr0.2.2) ∈ gradeSet
      split
      · decide
      · exact hg
    · intro _
      show (if tr0.2.2 = "none" then "IN PROGRESS" else tr0.2.2) ≠ "none"
      split
      · decide
      next hne => exact hne
  next hprog =>
    obtain ⟨row, rest, hmem⟩ := scanLoop_inv _ tr h
    obtain ⟨pfx, num, hcode, hcont, ha, hn, hg⟩ := processRow_inv hmem
    exact ⟨⟨pfx, num, hcode, hcont, ha, hn⟩, hg, fun hc => absurd hc hprog⟩

/-- Anchor row of the C3 counterexample: a course row whose only grade
token is the loose status grade `P` after the credits column. -/
def rowC3 : Row :=
  ⟨1, 0, [⟨"MATH", 10, 40, 0, 8, 1⟩, ⟨"101", 45, 60, 0, 8, 1⟩,
    ⟨"Calculus", 70, 120, 0, 8, 1⟩, ⟨"3.00", 130, 150, 0, 8, 1⟩,
    ⟨"P", 160, 165, 0, 8, 1⟩]⟩

/-- The only grade values the claimed cascade (strict letter right of the
credits marker, strict letter left of the code, document-wide IN PROGRESS,
sentinel "none") can yield. -/
def claimedGrades : List String :=
  ["A", "A+", "A-", "B", "B+", "B-", "C", "C+", "C-", "D", "D+", "D-",
   "F", "F+", "F-", "IN PROGRESS", "none"]

/-- Claim C3 counterexample: the scanner also emits loose status grades
(P/S/U/I/T, from the `GRADE_TOKEN_LOOSE` fallback inside
`strict_grade_right_of_credits`), which the claimed four-step cascade can
never produce. -/
theorem c3_counterexample :
    scan_rows_for_courses [rowC3] ["MATH"] = [("MATH 101", "Calculus", "P")] ∧
      ¬ ("P" ∈ claimedGrades) := by
  constructor
  · with_unfolding_all decide
  · decide

/-- Claim C3 (amended): every grade the Course Scanner produces is a strict
letter grade A-F with an optional sign, a loose status grade P/S/U/I/T, the
phrase "IN PROGRESS", or the sentinel "none"; and when "IN PROGRESS" occurs
anywhere in the document, no emitted grade is the sentinel "none" (it is
rewritten to "IN PROGRESS"). -/
theorem c3_amended_grade_values (rows : List Row) (allowed : List String)
    (c t g : String) (h : (c, t, g) ∈ scan_rows_for_courses rows allowed) :
    g ∈ gradeSet ∧ (inprogAnywhere rows = true → g ≠ "none") :=
  ⟨(scan_rows_inv h).2.1, (scan_rows_inv h).2.2⟩

/-- Witness for the amended C3 at the concrete counterexample row. -/
theorem c3_witness :
    ("P" : String) ∈ gradeSet ∧ (inprogAnywhere [rowC3] = true → ("P" : String) ≠ "none") :=
  c3_amended_grade_values [rowC3] ["MATH"] "MATH 101" "Calculus" "P"
    (by with_unfolding_all decide)

/-- Claim C10: every triple returned by the Course Scanner has a code of
the form `PREFIX NUMBER` where the prefix is an upper-case token of the
allowed set and the number is three or four digits with an optional
upper-case letter; the grade is never the empty string. -/
theorem c10_course_triple_invariant (rows : List Row) (allowed : List String)
    (c t g : String) (h : (c, t, g) ∈ scan_rows_for_courses rows allowed) :
    (∃ pfx num, c = pfx ++ " " ++ num ∧ allowed.contains pfx = true ∧
      upperAlpha2B pfx = true ∧ upperNumTokB num = true) ∧ g ≠ "" := by
  obtain ⟨hc, hg, _⟩ := scan_rows_inv h
  exact ⟨hc, gradeSet_ne_empty hg⟩

/-- Input row for the C10 witness. -/
def rowC10 : Row := ⟨1, 0, [⟨"MATH", 10, 40, 0, 8, 1⟩, ⟨"101", 45, 60, 0, 8, 1⟩]⟩

/-- Witness for C10 at a concrete scanner run. -/
theorem c10_witness :
    (∃ pfx num, ("MATH 101" : String) = pfx ++ " " ++ num ∧
      (["MATH"] : List String).contains pfx = true ∧
      upperAlpha2B pfx = true ∧ upperNumTokB num = true) ∧ ("none" : String) ≠ "" :=
  c10_course_triple_invariant [rowC10] ["MATH"] "MATH 101" "" "none"
    (by with_unfolding_all decide)

/-- The cross-row course pattern between two consecutive rows: the first
row's last token is a candidate subject code and the second row's first
token is a course number (the pattern recognised by the cross-row stitch
branch). -/
def adjPattern (r r2 : Row) : Bool :=
  match r.toks.getLast?, r2.toks.head? with
  | some a, some b => alpha2B a.text && numTokB b.text
  | _, _ => false

theorem crossRowRecs_nil_of_noadj {allowed : List String} {tx : Nat → Option ℚ}
    {toks : List Tok} {row : Row} {rest : List Row}
    (htoks : toks = row.toks)
    (hadj : ∀ y ∈ rest.head?, adjPattern row y = false) :
    crossRowRecs allowed tx toks rest = [] := by
  rw [crossRowRecs.eq_def]
  split
  · rfl
  next nextRow rest2 =>
    have hadj' : adjPattern row nextRow = false := hadj nextRow (by simp)
    split
    · rfl
    · split
      · rfl
      next last hlast =>
        split
        next halpha =>
          split
          · rfl
          next nt0 ntRest heq =>
            split
            next hnum =>
              exfalso
              rw [adjPattern] at hadj'
              rw [htoks] at hlast
              rw [hlast, heq] at hadj'
              simp [halpha, hnum] at hadj'
            next => rfl
        next => rfl

theorem processRow_nil_of_no_pairs {allowed : List String} {tx : Nat → Option ℚ}
    {row : Row} {rest : List Row}
    (hp : iter_code_pairs row.toks = [])
    (hadj : ∀ y ∈ rest.head?, adjPattern row y = false) :
    processRow allowed tx row rest = [] := by
  simp only [processRow]
  split
  · rfl
  · split
    · rfl
    · rw [hp]
      simp only [List.filter_nil, List.isEmpty_nil, if_true, List.map_nil]
      exact crossRowRecs_nil_of_noadj rfl hadj

theorem iter_code_pairs_short {toks : List Tok} (h : toks.length < 2) :
    iter_code_pairs toks = [] := by
  rcases toks with _ | ⟨a, _ | ⟨b, rest⟩⟩
  · rfl
  · rfl
  · simp at h
    omega

theorem processRow_single {allowed : List String} {tx : Nat → Option ℚ}
    {row : Row} {rest : List Row} {p : CodePair}
    (hadmin : is_admin_row (pyStrip (row_text row)) = false)
    (hp : iter_code_pairs row.toks = [p])
    (hcont : allowed.contains (pyUpper p.1.2.text) = true) :
    processRow allowed tx row rest =
      [pairRecord (tx row.page) row rest row.toks [p] p] := by
  simp only [processRow]
  rw [if_neg (by simp [hadmin])]
  have hlen : ¬ row.toks.length < 2 := by
    intro hl
    rw [iter_code_pairs_short hl] at hp
    cases hp
  rw [if_neg hlen, hp]
  have hmem : pyUpper p.1.2.text ∈ allowed := List.elem_iff.mp hcont
  simp [hcont, hmem]

theorem processRow_single_na {allowed : List String} {tx : Nat → Option ℚ}
    {row : Row} {rest : List Row} {p : CodePair}
    (hp : iter_code_pairs row.toks = [p])
    (hcont : allowed.contains (pyUpper p.1.2.text) = false)
    (hadj : ∀ y ∈ rest.head?, adjPattern row y = false) :
    processRow allowed tx row rest = [] := by
  simp only [processRow]
  split
  · rfl
  · split
    · rfl
    · rw [hp]
      simp only [List.filter_cons, List.filter_nil, hcont, Bool.false_eq_true,
        if_false, List.isEmpty_nil, if_true, List.map_nil]
      exact crossRowRecs_nil_of_noadj rfl hadj

theorem scanLoop_nil {allowed : List String} {tx : Nat → Option ℚ} :
    ∀ (rows : List Row),
      (∀ r' ∈ rows, iter_code_pairs r'.toks = []) →
      List.Chain' (fun a b => adjPattern a b = false) rows →
      scanLoop allowed tx rows = [] := by
  intro rows
  induction rows with
  | nil => intro _ _; rfl
  | cons x xs ih =>
    intro hall hchain
    rw [scanLoop]
    rw [List.chain'_cons'] at hchain
    rw [processRow_nil_of_no_pairs (hall x (List.mem_cons_self _ _)) hchain.1]
    rw [ih (fun r' hr' => hall r' (List.mem_cons_of_mem _ hr')) hchain.2]
    rfl

theorem scanLoop_skip {allowed : List String} {tx : Nat → Option ℚ}
    (r : Row) (post : List Row) :
    ∀ (pre : List Row),
      (∀ r' ∈ pre, iter_code_pairs r'.toks = []) →
      List.Chain' (fun a b => adjPattern a b = false) (pre ++ r :: post) →
      scanLoop allowed tx (pre ++ r :: post) = scanLoop allowed tx (r :: post) := by
  intro pre
  induction pre with
  | nil => intro _ _; rfl
  | cons x pre' ih =>
    intro hall hchain
    rw [List.cons_append, scanLoop]
    rw [List.cons_append, List.chain'_cons'] at hchain
    rw [processRow_nil_of_no_pairs (hall x (List.mem_cons_self _ _)) hchain.1]
    rw [ih (fun r' h => hall r' (List.mem_cons_of_mem _ h)) hchain.2]
    rfl

/-- Claim C5 (amended): for every allowed-prefix set and every row sequence
in which exactly one, non-administrative, row carries exactly one code pair
— the adjacent tokens "MATH" "101" — and no other row carries a code pair
nor do any two consecutive rows form the cross-row code pattern, the
scanner reports exactly one record with code "MATH 101" when MATH is
allowed and none when it is not. -/
theorem c5_amended_single_anchor (rows : List Row) (allowed : List String)
    (pre post : List Row) (r : Row) (p : CodePair)
    (hsplit : rows = pre ++ r :: post)
    (hp : iter_code_pairs r.toks = [p])
    (hpt : p.1.2.text = "MATH") (hnt : p.2.2.text = "101")
    (hadmin : is_admin_row (pyStrip (row_text r)) = false)
    (hothers : ∀ r' ∈ pre ++ post, iter_code_pairs r'.toks = [])
    (hchain : List.Chain' (fun a b => adjPattern a b = false) rows) :
    ("MATH" ∈ allowed →
      ∃ t g, scan_rows_for_courses rows allowed = [("MATH 101", t, g)]) ∧
    ("MATH" ∉ allowed → scan_rows_for_courses rows allowed = []) := by
  subst hsplit
  obtain ⟨hcpre, hc2, hc3⟩ := List.chain'_append.mp hchain
  rw [List.chain'_cons'] at hc2
  have hpre : ∀ r' ∈ pre, iter_code_pairs r'.toks = [] :=
    fun r' h => hothers r' (List.mem_append.mpr (Or.inl h))
  have hpost : ∀ r' ∈ post, iter_code_pairs r'.toks = [] :=
    fun r' h => hothers r' (List.mem_append.mpr (Or.inr h))
  have hup : pyUpper p.1.2.text = "MATH" := by rw [hpt]; rfl
  constructor
  · intro hmem
    have hcont : allowed.contains (pyUpper p.1.2.text) = true := by
      rw [hup]
      exact List.elem_iff.mpr hmem
    have hloop : scanLoop allowed
        (title_column_x_per_page (pre ++ r :: post)) (pre ++ r :: post) =
        [pairRecord (title_column_x_per_page (pre ++ r :: post) r.page)
          r post r.toks [p] p] := by
      rw [scanLoop_skip r post pre hpre hchain, scanLoop,
        processRow_single hadmin hp hcont,
        scanLoop_nil post hpost hc2.2]
      rfl
    have hcode : (pairRecord (title_column_x_per_page (pre ++ r :: post) r.page)
        r post r.toks [p] p).1 = "MATH 101" := by
      rw [pairRecord_code, hpt, hnt]
      rfl
    simp only [scan_rows_for_courses]
    rw [hloop]
    by_cases hflag : inprogAnywhere (pre ++ r :: post) = true
    · rw [if_pos hflag]
      simp only [List.map_cons, List.map_nil, hcode]
      exact ⟨_, _, rfl⟩
    · rw [if_neg hflag]
      refine ⟨(pairRecord (title_column_x_per_page (pre ++ r :: post) r.page)
          r post r.toks [p] p).2.1,
        (pairRecord (title_column_x_per_page (pre ++ r :: post) r.page)
          r post r.toks [p] p).2.2, ?_⟩
      rw [← hcode]
  · intro hmem
    have hcont : allowed.contains (pyUpper p.1.2.text) = false := by
      rw [hup]
      rcases hc : allowed.contains "MATH" with _ | _
      · rfl
      · exact absurd (List.elem_iff.mp hc) hmem
    have hloop : scanLoop allowed
        (title_column_x_per_page (pre ++ r :: post)) (pre ++ r :: post) = [] := by
      rw [scanLoop_skip r post pre hpre hchain, scanLoop,
        processRow_single_na hp hcont hc2.1,
        scanLoop_nil post hpost hc2.2]
      rfl
    simp only [scan_rows_for_courses]
    rw [hloop]
    by_cases hflag : inprogAnywhere (pre ++ r :: post) = true
    · rw [if_pos hflag]
      rfl
    · rw [if_neg hflag]

/-- A "MATH" token for the C5 rows. -/
def tokC5M : Tok := ⟨"MATH", 10, 40, 0, 8, 1⟩

/-- A "101" token for the C5 rows. -/
def tokC5N : Tok := ⟨"101", 45, 60, 0, 8, 1⟩

/-- A row holding exactly one occurrence of the pair "MATH 101". -/
def rowC5 : Row := ⟨1, 0, [tokC5M, tokC5N]⟩

/-- An administrative row ("GPA ...") holding exactly one "MATH 101" pair. -/
def rowC5Admin : Row := ⟨1, 0, [⟨"GPA", 1, 8, 0, 8, 1⟩, tokC5M, tokC5N]⟩

/-- Claim C5, counterexample to the unamended statement: the row
"GPA MATH 101" contains exactly one occurrence of the token pair
"MATH 101" (witnessed by `iter_code_pairs`) and no other course-code
pattern, MATH is in the allowed set, yet the scanner reports zero
records, because `is_admin_row` filters the anchor row. -/
theorem c5_counterexample :
    iter_code_pairs rowC5Admin.toks = [((1, tokC5M), (2, tokC5N))] ∧
    "MATH" ∈ ["MATH"] ∧
    scan_rows_for_courses [rowC5Admin] ["MATH"] = [] := by
  refine ⟨by with_unfolding_all decide, by simp, by with_unfolding_all decide⟩

theorem c5_witness :
    (∃ t g, scan_rows_for_courses [rowC5] ["MATH"] = [("MATH 101", t, g)]) ∧
    scan_rows_for_courses [rowC5] ["ENGL"] = [] := by
  constructor
  · exact (c5_amended_single_anchor [rowC5] ["MATH"] [] [] rowC5
      ((0, tokC5M), (1, tokC5N)) rfl (by with_unfolding_all decide) rfl rfl
      (by with_unfolding_all decide) (by simp) (by simp)).1 (by simp)
  · exact (c5_amended_single_anchor [rowC5] ["ENGL"] [] [] rowC5
      ((0, tokC5M), (1, tokC5N)) rfl (by with_unfolding_all decide) rfl rfl
      (by with_unfolding_all decide) (by simp) (by simp)).2 (by simp)
